import Mathlib

/-!
# imap-example: the mailbox watcher and the message decoder

A shallow embedding of `mailbox/debug.go`, `mailbox/message.go` and
`mailbox/mailbox.go`, followed by the theorems about them.

Conventions of the embedding

* A Go `string` / `[]byte` is a `List Char`; one `Char` stands for one byte.
* A Go `error` result is an `Option` (`none` is `nil`) or an `Except`.
* `uint32` values are `Nat`s, reduced `% 2 ^ 32` where the source does arithmetic.
* Calls into the IMAP endpoint are recorded as a list of `Action`s, and what
  the endpoint answers is an explicit input (`Round`).
-/

namespace ImapExample

/-- A Go string (equally a byte slice): the sequence of its bytes. -/
abbrev GoString := List Char

/-! ## `strings` helpers used by the sources -/

/-- Go `strings.HasPrefix(s, p)`. -/
def HasPrefix (s p : GoString) : Bool := p.isPrefixOf s

/-- The scanning loop of Go `strings.Replace(s, old, new, -1)` for a non-empty `old`:
the first argument counts the bytes of a match that remain to be dropped. At a position
where `old` matches, `new` is written and the match is skipped (matches do not overlap);
elsewhere the byte is copied. -/
def replaceScan {α : Type} [DecidableEq α] (old new : List α) : Nat → List α → List α
  | _, [] => []
  | skip + 1, _ :: s => replaceScan old new skip s
  | 0, c :: s =>
    if old.isPrefixOf (c :: s) then new ++ replaceScan old new (old.length - 1) s
    else c :: replaceScan old new 0 s

/-- Go `strings.ReplaceAll(s, old, new)`. With an empty `old`, Go writes `new` before every
character and at the end (here: before every byte, which is the same for ASCII text). -/
def ReplaceAll {α : Type} [DecidableEq α] (s old new : List α) : List α :=
  if old = new then s
  else if old = [] then new ++ s.flatMap (fun c => c :: new)
  else replaceScan old new 0 s

/-! ## The struct `mailbox` -/

/-- The state of a Go channel. -/
inductive Chan where
  | isNil
  | ready
  | closed
  deriving DecidableEq, Repr

/-- The fields of the struct `mailbox` that the embedded methods read or write (the logger
and the two handler channels that no embedded method touches are left out); `client` says
whether the client handle is present (non-nil). -/
structure mailbox where
  username : GoString
  password : GoString
  server : GoString
  /-- The field `mailbox` of the Go struct, the name of the folder. -/
  folder : GoString
  messages : Chan
  numMessages : Nat
  client : Bool
  unliteralMailboxHandler : Chan
  deriving DecidableEq, Repr

/-- The function `New`. -/
def New (server username password folder : GoString) : mailbox :=
  { username := username, password := password, server := server, folder := folder,
    messages := .ready, numMessages := 0, client := false, unliteralMailboxHandler := .isNil }

/-! ## `mailbox/debug.go` -/

/-- The struct `debugWriter`. -/
structure debugWriter where
  mailbox : mailbox
  deriving DecidableEq, Repr

/-- The outcome of `debugWriter.Write`: the text handed to `slog.Debug`, and the two
return values. -/
structure WriteResult where
  logged : GoString
  n : Nat
  err : Option Unit
  deriving DecidableEq, Repr

/-- The method `debugWriter.Write`. -/
def debugWriter.Write (w : debugWriter) (b : GoString) : WriteResult :=
  let msg := b
  let msg := ReplaceAll msg w.mailbox.password "***".toList
  { logged := msg, n := b.length, err := none }

/-! ## The standard library as seen by `mailbox/message.go`

`message.go` is glue around `net/mail`, `mime`, `mime/multipart` and
`mime/quotedprintable`. Those packages are not part of the repository, so the embedding
takes them as a record of functions, `Std`; the theorems about the decoder hold for every
such record. `goStd` further down is one concrete record, used to run the decoder on the
fixture of `message_test.go`. -/

/-- Go `strings.Split(s, sep)` for a separator of one byte: the pieces of `s` between the
separators. The result is never empty: `strings.Split("", ";")` is `[""]`. -/
def Split (s : GoString) (sep : Char) : List GoString :=
  match s with
  | [] => [[]]
  | c :: s =>
    if c = sep then [] :: Split s sep
    else
      match Split s sep with
      | [] => [[c]]
      | w :: ws => (c :: w) :: ws

/-- A parsed header block (`mail.Header`, `textproto.MIMEHeader`): canonical keys with
their values, in the order read. -/
abbrev Header := List (GoString × GoString)

/-- The header method `Get`: the first value stored under `key`, or `""`. The keys asked for
by the sources (`"Content-Type"`, `"Content-Transfer-Encoding"`, `"Subject"`) are already in
canonical form. -/
def Header.Get (h : Header) (key : GoString) : GoString :=
  match h.lookup key with
  | some v => v
  | none => []

/-- A `*mail.Message`: the header and the bytes its `Body` reader yields. -/
structure MailMessage where
  Header : Header
  Body : GoString
  deriving DecidableEq, Repr

/-- A `*multipart.Part` as the sources use it: its header, and the result of
`io.ReadAll` on it. -/
structure Part (E : Type) where
  Header : Header
  content : Except E GoString

/-- The library functions `message.go` calls; `E` is the type of the errors they return. -/
structure Std (E : Type) where
  /-- The call `mail.ReadMessage(bytes.NewReader(rawBody))`. -/
  ReadMessage : GoString → Except E MailMessage
  /-- The function `strings.ToLower`. -/
  ToLower : GoString → GoString
  /-- The function `mime.ParseMediaType`: the media type and its parameters. -/
  ParseMediaType : GoString → Except E (GoString × List (GoString × GoString))
  /-- The reader `multipart.NewReader(body, boundary)`: the parts that successive calls of
  `NextPart` return, and how the sequence ends: `none` for `io.EOF`, or the error. -/
  NextParts : GoString → GoString → List (Part E) × Option E
  /-- Reading all of `quotedprintable.NewReader(r)`, given the bytes of `r`. -/
  quotedprintable : GoString → Except E GoString
  /-- The method `mime.WordDecoder.DecodeHeader`. -/
  DecodeHeader : GoString → Except E GoString

/-- Errors returned by the decoder: a library error passed on, the wrapped error of
`parseMultipart`, or the error of `PlainText`. -/
inductive DecodeError (E : Type) where
  | lib (e : E)
  | invalidMultipart (cause : E)
  | contentTypeNotFound
  deriving DecidableEq, Repr

/-! ## A concrete standard library

`goStd other` is a record of the library functions for plain texts: printable ASCII, tabs
and line feeds. On such input every function follows the Go packages (Go 1.21, the
release that brought `log/slog`); on any other input, and where quoted-printable text,
encoded words or RFC 2231 parameters would have to be decoded, it hands over to `other`.
Errors are strings. Size limits of the packages are left out. -/

/-- The bytes of the modelled texts: printable ASCII, tab and line feed. -/
def isPlainByte (c : Char) : Bool :=
  (32 ≤ c.toNat && c.toNat ≤ 126) || c = '\t' || c = '\n'

/-- Space or tab. -/
def isLWSP (c : Char) : Bool := c = ' ' || c = '\t'

/-- Go `strings.TrimLeft(s, " \t")`. -/
def trimLeft (s : GoString) : GoString := s.dropWhile isLWSP

/-- The function `trim` of `net/textproto`: spaces and tabs are cut from both ends. -/
def trim (s : GoString) : GoString := (trimLeft (trimLeft s).reverse).reverse

/-- Whether the text starts with a space or a tab. -/
def startsLWSP (s : GoString) : Bool :=
  match s with
  | [] => false
  | c :: _ => isLWSP c

/-- Go `strings.ToLower` on ASCII text. -/
def asciiToLower (s : GoString) : GoString := s.map Char.toLower

/-- The bytes allowed in a header key (`validHeaderFieldByte`): the token characters. -/
def isFieldByte (c : Char) : Bool :=
  c.isAlphanum || "!#$%&'*+-.^_`|~".toList.contains c

/-- The rewriting loop of `CanonicalMIMEHeaderKey`: upper case at the start and after a
hyphen, lower case elsewhere. -/
def canonicalLoop : Bool → GoString → GoString
  | _, [] => []
  | upper, c :: s =>
    let c := if upper then c.toUpper else c.toLower
    c :: canonicalLoop (c = '-') s

/-- The function `textproto.CanonicalMIMEHeaderKey`: a key with a byte outside the token
characters is returned unchanged. -/
def CanonicalMIMEHeaderKey (k : GoString) : GoString :=
  if k.all isFieldByte then canonicalLoop true k else k

/-- Go `strings.Cut(kv, ":")`. -/
def cutColon (kv : GoString) : Option (GoString × GoString) :=
  if ':' ∈ kv then some (kv.takeWhile (· ≠ ':'), (kv.dropWhile (· ≠ ':')).drop 1) else none

/-- A header line with its continuation lines: the first line as read, and the whole. -/
structure LogicalLine where
  first : GoString
  whole : GoString
  deriving DecidableEq, Repr

/-- The method `readContinuedLineSlice`, repeated until the blank line: `cur` is the header
line read so far, and the list holds the pieces of the text between line feeds that follow.
A piece that starts with a space or tab continues `cur`, joined by one space. The result is
the header lines, and the pieces after the blank line (`none` when the text ends first). The
last piece is what follows the last line feed. -/
def continuedLines (cur : LogicalLine) :
    List GoString → List LogicalLine × Option (List GoString)
  | [] => ([cur], none)
  | [l] =>
    if l = [] then ([cur], none)
    else if startsLWSP l then ([{ cur with whole := cur.whole ++ ' ' :: trim l }], none)
    else ([cur, ⟨l, trim l⟩], none)
  | l :: m :: ls =>
    if l = [] then ([cur], some (m :: ls))
    else if startsLWSP l then
      continuedLines { cur with whole := cur.whole ++ ' ' :: trim l } (m :: ls)
    else
      let r := continuedLines ⟨l, trim l⟩ (m :: ls)
      (cur :: r.1, r.2)

/-- The header lines at the start of a text given by its pieces, up to the blank line. -/
def headerLines : List GoString → List LogicalLine × Option (List GoString)
  | [] => ([], none)
  | [l] => if l = [] then ([], none) else ([⟨l, trim l⟩], none)
  | l :: m :: ls =>
    if l = [] then ([], some (m :: ls)) else continuedLines ⟨l, trim l⟩ (m :: ls)

/-- The loop of `readHeader` in `net/mail` over the header lines: the key ends at the first
colon and is made canonical, a line with an empty key is skipped, the value loses its
leading spaces; a line without colon is an error. -/
def mailHeader : List LogicalLine → Except String Header
  | [] => .ok []
  | kv :: rest =>
    match cutColon kv.whole with
    | none => .error "mail: malformed header line"
    | some (k, v) =>
      match mailHeader rest with
      | .error e => .error e
      | .ok h =>
        if CanonicalMIMEHeaderKey k = [] then .ok h
        else .ok ((CanonicalMIMEHeaderKey k, trimLeft v) :: h)

/-- The function `mail.ReadMessage` on the bytes of a plain text. The body is everything
after the blank line. A text that ends inside the header is a message without body,
unless the header is empty. -/
def goReadMessage (raw : GoString) : Except String MailMessage :=
  let pieces := Split raw '\n'
  if startsLWSP raw then .error "mail: malformed initial line"
  else
    match mailHeader (headerLines pieces).1, (headerLines pieces).2 with
    | .error e, _ => .error e
    | .ok h, some rest => .ok ⟨h, List.intercalate ['\n'] rest⟩
    | .ok h, none => if h = [] then .error "EOF" else .ok ⟨h, []⟩

/-- The loop of `readMIMEHeader` in `net/textproto`, which reads the header of a part: the
first line of each header line must hold the colon, and the key may hold token characters
and spaces only; a key with a space is not made canonical. -/
def mimeHeader : List LogicalLine → Except String Header
  | [] => .ok []
  | kv :: rest =>
    if ':' ∉ kv.first then .error "malformed MIME header: missing colon"
    else
      match cutColon kv.whole with
      | none => .error "malformed MIME header line"
      | some (k, v) =>
        if !(k.all (fun c => isFieldByte c || c = ' ')) then .error "malformed MIME header line"
        else
          match mimeHeader rest with
          | .error e => .error e
          | .ok h =>
            if CanonicalMIMEHeaderKey k = [] then .ok h
            else .ok ((CanonicalMIMEHeaderKey k, trimLeft v) :: h)

/-- The characters `tspecials` of `mime`. -/
def isTSpecial (c : Char) : Bool := "()<>@,;:\\\"/[]?=".toList.contains c

/-- The token characters of `mime`. -/
def isTokenChar (c : Char) : Bool := 32 < c.toNat && c.toNat < 127 && !isTSpecial c

/-- The function `consumeToken` of `mime`: the longest token at the start, and the rest. -/
def consumeToken (v : GoString) : GoString × GoString := v.span isTokenChar

/-- The loop of `consumeValue` over a quoted string, after the opening quote: the text up
to the closing quote, a backslash before a tspecial dropped, and the rest; `none` without
a closing quote. -/
def consumeQuoted : GoString → Option (GoString × GoString)
  | [] => none
  | '"' :: rest => some ([], rest)
  | '\\' :: c :: rest =>
    if isTSpecial c then (consumeQuoted rest).map (fun r => (c :: r.1, r.2))
    else (consumeQuoted (c :: rest)).map (fun r => ('\\' :: r.1, r.2))
  | c :: rest =>
    if c = '\n' then none else (consumeQuoted rest).map (fun r => (c :: r.1, r.2))

/-- The function `consumeValue` of `mime`: a token or a quoted string. -/
def consumeValue (v : GoString) : GoString × GoString :=
  match v with
  | [] => ([], [])
  | '"' :: rest =>
    match consumeQuoted rest with
    | some r => r
    | none => ([], v)
  | _ => consumeToken v

/-- The function `consumeMediaParam` of `mime`: one `; key=value`, the key in lower case;
an empty key reports that there is none. -/
def consumeMediaParam (v : GoString) : GoString × GoString × GoString :=
  match trimLeft v with
  | ';' :: rest =>
    let (param, rest) := consumeToken (trimLeft rest)
    if param = [] then ([], [], v)
    else
      match trimLeft rest with
      | '=' :: rest =>
        let rest := trimLeft rest
        let (value, rest2) := consumeValue rest
        if value = [] ∧ rest2 = rest then ([], [], v) else (asciiToLower param, value, rest2)
      | _ => ([], [], v)
  | _ => ([], [], v)

/-- The function `checkMediaTypeDisposition` of `mime`: a token, or `token/token`. -/
def checkMediaTypeDisposition (s : GoString) : Bool :=
  let (typ, rest) := consumeToken s
  if typ = [] then false
  else
    match rest with
    | [] => true
    | '/' :: rest => (consumeToken rest).1 ≠ [] ∧ (consumeToken rest).2 = []
    | _ => false

/-- The parameter loop of `mime.ParseMediaType`; the first argument bounds the number of
rounds by the length of the text. -/
def mediaParams : Nat → GoString → List (GoString × GoString) →
    Except String (List (GoString × GoString))
  | 0, _, params => .ok params
  | fuel + 1, v, params =>
    let v := trimLeft v
    if v = [] then .ok params
    else
      match consumeMediaParam v with
      | (key, value, rest) =>
        if key = [] then
          if trim rest = [';'] then .ok params else .error "mime: invalid media parameter"
        else
          match params.lookup key with
          | some old =>
            if old ≠ value then .error "mime: duplicate parameter name"
            else mediaParams fuel rest params
          | none => mediaParams fuel rest (params ++ [(key, value)])

/-- The function `mime.ParseMediaType` on a plain text without `*`. -/
def goParseMediaType (v : GoString) : Except String (GoString × List (GoString × GoString)) :=
  let base := v.takeWhile (· ≠ ';')
  let mediatype := trim (asciiToLower base)
  if !checkMediaTypeDisposition mediatype then .error "mime: invalid media type"
  else
    match mediaParams (v.length + 1) (v.drop base.length) [] with
    | .error e => .error e
    | .ok params => .ok (mediatype, params)

/-- The delimiter line of `multipart`: the dashes and the boundary, then spaces and tabs. -/
def isDelimiter (dash l : GoString) : Bool :=
  dash.isPrefixOf l && (l.drop dash.length).all isLWSP

/-- Where the body of a part ends (`matchAfterPrefix` after a line feed): at a line that
starts with the dashes and the boundary, followed by its end, a space, a tab or `--`. -/
def endsBody (dash l : GoString) : Bool :=
  dash.isPrefixOf l &&
    match l.drop dash.length with
    | [] => true
    | c :: r => c = ' ' || c = '\t' || (c = '-' && r.head? = some '-')

/-- The body of a part: the pieces before the line that ends it, then that line and the
pieces after it; `none` when the text ends first. -/
def splitBody (dash : GoString) :
    List GoString → List GoString × Option (GoString × List GoString)
  | [] => ([], none)
  | l :: ls =>
    if endsBody dash l then ([], some (l, ls))
    else
      let r := splitBody dash ls
      (l :: r.1, r.2)

/-- The calls of `NextPart` from the header of a part on; the list holds the pieces after a
delimiter line, and the first argument bounds the number of parts by the number of pieces.
The result is `none` when a part is quoted-printable. -/
def nextParts (dash : GoString) :
    Nat → List GoString → Option (List (Part String) × Option String)
  | 0, _ => some ([], some "multipart: NextPart: EOF")
  | fuel + 1, pieces =>
    if (pieces.head?.map startsLWSP).getD false then
      some ([], some "malformed MIME header initial line")
    else
      match mimeHeader (headerLines pieces).1, (headerLines pieces).2 with
      | .error e, _ => some ([], some e)
      | .ok _, none => some ([], none)
      | .ok h, some rest =>
        if asciiToLower (Header.Get h "Content-Transfer-Encoding".toList)
            = "quoted-printable".toList then none
        else
          match splitBody dash rest with
          | (_, none) =>
            some ([⟨h, .error "unexpected EOF"⟩], some "multipart: NextPart: EOF")
          | (content, some (l, ls)) =>
            let part : Part String := ⟨h, .ok (List.intercalate ['\n'] content)⟩
            if ls ≠ [] ∧ isDelimiter dash l then
              (nextParts dash fuel ls).map (fun r => (part :: r.1, r.2))
            else if isDelimiter (dash ++ "--".toList) l then some ([part], none)
            else if ls = [] then some ([part], some "multipart: NextPart: EOF")
            else some ([part], some "multipart: unexpected line in Next()")

/-- The calls of `NextPart` before the first part: lines are skipped up to the first
delimiter line; a text that ends before it ends the parts only with the closing delimiter
as its last, unfinished line. -/
def firstPart (dash : GoString) : List GoString → Option (List (Part String) × Option String)
  | [] => some ([], some "multipart: NextPart: EOF")
  | [l] =>
    if isDelimiter (dash ++ "--".toList) l then some ([], none)
    else some ([], some "multipart: NextPart: EOF")
  | l :: m :: ls =>
    if isDelimiter dash l then nextParts dash (ls.length + 2) (m :: ls)
    else firstPart dash (m :: ls)

/-- The reader `multipart.NewReader(body, boundary)` on a plain text, read to its end. -/
def goNextParts (body boundary : GoString) : Option (List (Part String) × Option String) :=
  if boundary = [] then some ([], some "multipart: boundary is empty")
  else firstPart ("--".toList ++ boundary) (Split body '\n')

/-- Whether the text holds `=?`, the start of an encoded word. -/
def hasEncodedWord : GoString → Bool
  | [] => false
  | c :: s => (c = '=' && s.head? = some '?') || hasEncodedWord s

/-- The concrete library record. -/
def goStd (other : Std String) : Std String where
  ReadMessage raw := if raw.all isPlainByte then goReadMessage raw else other.ReadMessage raw
  ToLower s := if s.all (fun c => c.toNat < 128) then asciiToLower s else other.ToLower s
  ParseMediaType v :=
    if v.all isPlainByte ∧ '*' ∉ v ∧ '\n' ∉ v then goParseMediaType v else other.ParseMediaType v
  NextParts body boundary :=
    if body.all isPlainByte ∧ boundary.all isPlainByte ∧ '\n' ∉ boundary then
      (goNextParts body boundary).getD (other.NextParts body boundary)
    else other.NextParts body boundary
  quotedprintable := other.quotedprintable
  DecodeHeader h := if hasEncodedWord h then other.DecodeHeader h else .ok h

/-- The raw message of `TestMessageParseBody` (`message_test.go`, lines 10-43), line by line;
in the Go literal every line ends with a line feed. -/
def fixtureLines : List String :=
  [ "Return-Path: <sender@betom.de>",
    "Authentication-Results:  kundenserver.de; dkim=none",
    "Received: from mout.kundenserver.de ([212.227.126.135]) by mx.kundenserver.de",
    " (mxeue102 [217.72.192.67]) with ESMTPS (Nemesis) id 1MgQMD-1rir0j14hj-00ojoy",
    " for <receiver@betom.de>; Fri, 08 Dec 2023 23:01:50 +0100",
    "Received: from smtpclient.apple ([91.97.158.187]) by mrelayeu.kundenserver.de",
    " (mreue011 [212.227.15.167]) with ESMTPSA (Nemesis) id",
    " 1MRT6b-1qqbfM3xZ7-00NRQ0 for <reseiver@betom.de>; Fri, 08 Dec 2023 23:01:50",
    " +0100",
    "From: Mr. Sender <sender@betom.de>",
    "Content-Type: multipart/alternative;",
    "\tboundary=\"Apple-Mail=_30EF9BCC-CBCB-4D8E-923B-4D84F807ACF2\"",
    "Mime-Version: 1.0 (Mac OS X Mail 16.0 \\(3731.700.6\\))",
    "Subject: Hello",
    "Message-Id: <8FA1FA02-1C50-41EC-BBC9-760067F01735@betom.de>",
    "Date: Fri, 8 Dec 2023 23:01:39 +0100",
    "To: receiver@betom.de",
    "Envelope-To: <receiver@betom.de>",
    "",
    "",
    "--Apple-Mail=_30EF9BCC-CBCB-4D8E-923B-4D84F807ACF2",
    "Content-Transfer-Encoding: 7bit",
    "Content-Type: text/plain;",
    "\tcharset=us-ascii",
    "",
    "Hello world!",
    "--Apple-Mail=_30EF9BCC-CBCB-4D8E-923B-4D84F807ACF2",
    "Content-Transfer-Encoding: 7bit",
    "Content-Type: text/html;",
    "\tcharset=us-ascii",
    "",
    "<html><head><meta http-equiv=\"content-type\" content=\"text/html; charset=us-ascii\"></head><body style=\"overflow-wrap: break-word; -webkit-nbsp-mode: space; line-break: after-white-space;\"><b>123</b></body></html>",
    "--Apple-Mail=_30EF9BCC-CBCB-4D8E-923B-4D84F807ACF2--" ]

/-- The bytes of the raw message of `TestMessageParseBody`. -/
def fixture : GoString :=
  fixtureLines.foldr (fun l acc => l.toList ++ '\n' :: acc) []

/-! ## `mailbox/message.go` -/

/-- A Go `map[string][]byte`, as an association list without repeated keys. -/
abbrev PartsMap := List (GoString × GoString)

/-- The assignment `parts[key] = cb`. -/
def PartsMap.set (parts : PartsMap) (key cb : GoString) : PartsMap :=
  (key, cb) :: parts.filter (fun e => e.1 ≠ key)

/-- The struct `Message`. -/
structure Message where
  base : MailMessage
  parts : PartsMap
  deriving DecidableEq, Repr

/-- The `for` loop of `parseMultipart` (lines 56-90), run over the results of `NextPart`:
`ps` are the parts still to come and `last` is what `NextPart` returns after them. -/
def parseMultipart.loop {E : Type} (L : Std E) (last : Option E) :
    List (Part E) → PartsMap → PartsMap × Option E
  | [], parts => (parts, last)
  | n :: ps, parts =>
    match Split (n.Header.Get "Content-Type".toList) ';' with
    | [] => parseMultipart.loop L last ps parts
    | key :: _ =>
      let contentEncoding := L.ToLower (n.Header.Get "Content-Transfer-Encoding".toList)
      let content : Except E GoString :=
        if contentEncoding = "quoted-printable".toList then
          match n.content with
          | .ok raw => L.quotedprintable raw
          | .error e => .error e
        else n.content
      match content with
      | .error _ => parseMultipart.loop L last ps parts
      | .ok cb => parseMultipart.loop L last ps (parts.set key cb)

/-- What one pass of the loop of `parseMultipart` does to the map, for the part `n`. -/
def parseMultipart.store {E : Type} (L : Std E) (n : Part E) (parts : PartsMap) : PartsMap :=
  (parseMultipart.loop L none [n] parts).1

/-- The function `parseMultipart`. -/
def parseMultipart {E : Type} (L : Std E) (base : MailMessage) :
    Option PartsMap × Option (DecodeError E) :=
  match L.ParseMediaType (base.Header.Get "Content-Type".toList) with
  | .error err => (none, some (.invalidMultipart err))
  | .ok (_, params) =>
    let boundary := (params.lookup "boundary".toList).getD []
    let r := L.NextParts base.Body boundary
    let (parts, err) := parseMultipart.loop L r.2 r.1 []
    (some parts, err.map DecodeError.lib)

/-- The function `NewMessage`. A nil map and an empty map answer lookups alike, so both are
the empty list. -/
def NewMessage {E : Type} (L : Std E) (rawBody : GoString) : Except (DecodeError E) Message :=
  match L.ReadMessage rawBody with
  | .error err => .error (.lib err)
  | .ok base =>
    let contentType := L.ToLower (base.Header.Get "Content-Type".toList)
    let (parts, err) : Option PartsMap × Option (DecodeError E) :=
      if HasPrefix contentType "text/plain".toList then
        let b := base.Body
        (some [("text/plain".toList, b)], none)
      else if HasPrefix contentType "multipart/alternative".toList then
        parseMultipart L base
      else (none, none)
    match err with
    | some err => .error err
    | none => .ok { base := base, parts := parts.getD [] }

/-- The method `Message.Subject`. -/
def Message.Subject {E : Type} (L : Std E) (m : Message) : Except E GoString :=
  L.DecodeHeader (m.base.Header.Get "Subject".toList)

/-- The method `Message.PlainText`. -/
def Message.PlainText {E : Type} (m : Message) : Except (DecodeError E) GoString :=
  match m.parts.lookup "text/plain".toList with
  | none => .error .contentTypeNotFound
  | some c => .ok c

/-! ## The IMAP library as seen by `mailbox/mailbox.go`

The endpoint (`imapclient.Client`) is outside the repository. Every call into it is recorded
as an `Action`; what it answers during one pass of the watch loop is a `Round`. -/

/-- An `imap.SeqSet`: its ranges `(Start, Stop)`, both inclusive. -/
abbrev SeqSet := List (Nat × Nat)

/-- The number of sequence numbers in the set. -/
def SeqSet.size (s : SeqSet) : Nat := (s.map (fun r => r.2 - r.1 + 1)).sum

/-- The verb `%d` of `fmt.Sprintf` for an unsigned integer. -/
def formatUint (n : Nat) : GoString := Nat.toDigits 10 n

/-- One step of `strconv.ParseUint(v, 10, 32)`: the value read so far, extended by a digit;
`none` for a byte that is no digit and on overflow of 32 bits. -/
def parseStep (acc : Option Nat) (c : Char) : Option Nat :=
  match acc with
  | none => none
  | some a =>
    if '0'.toNat ≤ c.toNat ∧ c.toNat ≤ '9'.toNat then
      let v := a * 10 + (c.toNat - '0'.toNat)
      if v < 2 ^ 32 then some v else none
    else none

/-- Go `strconv.ParseUint(v, 10, 32)`; `none` is an error. -/
def ParseUint32 (v : GoString) : Option Nat :=
  match v with
  | [] => none
  | _ => v.foldl parseStep (some 0)

/-- The number parser of go-imap: a decimal `uint32` that does not start with `0`, or `*`
(which stands for 0). -/
def parseNum (v : GoString) : Option Nat :=
  match ParseUint32 v with
  | some n => if v.head? ≠ some '0' then some n else if v = ['*'] then some 0 else none
  | none => if v = ['*'] then some 0 else none

/-- The range parser of go-imap: `a` or `a:b`, the bounds put in order. -/
def parseSeqRange (v : GoString) : Option (Nat × Nat) :=
  if ':' ∈ v then
    match parseNum (v.takeWhile (· ≠ ':')), parseNum ((v.dropWhile (· ≠ ':')).drop 1) with
    | some start, some stop =>
      if (stop < start ∧ stop ≠ 0) ∨ start = 0 then some (stop, start) else some (start, stop)
    | _, _ => none
  else
    match parseNum v with
    | some n => some (n, n)
    | none => none

/-- The loop of `imap.ParseSeqSet` over the texts between the commas; the first text that is
no range ends it with an error. -/
def parseRanges : List GoString → Option SeqSet
  | [] => some []
  | v :: vs =>
    match parseSeqRange v with
    | none => none
    | some r =>
      match parseRanges vs with
      | none => none
      | some rs => some (r :: rs)

/-- The function `imap.ParseSeqSet` of go-imap: the ranges between the commas, in the order
written (go-imap also merges ranges that touch, which a single range never needs);
`none` is an error. -/
def ParseSeqSet (set : GoString) : Option SeqSet :=
  parseRanges (Split set ',')

/-- An `imap.PartSpecifier`. -/
inductive PartSpecifier where
  | None
  | Header
  | MIME
  | Text
  deriving DecidableEq, Repr

/-- An `imapclient.FetchMessageBuffer`: the sequence number and the body sections, in the
order in which `range` visits them. -/
structure FetchMessageBuffer where
  SeqNum : Nat
  BodySection : List (PartSpecifier × GoString)
  deriving DecidableEq, Repr

/-- The value sent on the completion channel by line 121,
`fmt.Errorf("unrecoverable error; %w", recoverErr)`: always non-nil, wrapping `cause`. -/
structure WrappedError (E : Type) where
  text : String
  cause : E
  deriving DecidableEq, Repr

/-- What the goroutine of `WaitForMessages` and `fetch` do to the outside. -/
inductive Action (E : Type) where
  /-- The handler channel is created (line 111). -/
  | makeHandler
  /-- The log line of line 125. -/
  | logRecover (err : E)
  /-- The call `m.client.Idle()`. -/
  | idleStart
  /-- The call `idle.Close()`. -/
  | idleClose
  /-- The call `idle.Wait()`. -/
  | idleWait
  /-- The call `m.client.Fetch(seq, ...)` with `Collect`. -/
  | fetch (seq : SeqSet)
  /-- The log line of line 210 for a message that does not decode. -/
  | logParseFailure (seqNum : Nat) (len : Nat)
  /-- The send `m.messages <- msg`. -/
  | publish (msg : Message)
  /-- The send `done <- v`; `none` is a nil error. -/
  | sendDone (v : Option (WrappedError E))
  /-- The deferred `close(m.unliteralMailboxHandler)`. -/
  | closeHandler
  /-- The deferred `close(done)`. -/
  | closeDone
  deriving DecidableEq, Repr

/-- A mailbox-status push, or cancellation: what the `select` of line 137 receives. -/
inductive Event where
  /-- The case `<-ctx.Done()`. -/
  | cancelled
  /-- The case `md = <-m.unliteralMailboxHandler`, with `md.NumMessages` (`none` is nil). -/
  | pushed (NumMessages : Option Nat)
  deriving DecidableEq, Repr

/-- The answers of the outside during one pass of the loop, in the order asked. An answer the
pass does not reach is not looked at. -/
structure Round (E : Type) where
  /-- The error of `m.client.Idle()`. -/
  idle : Option E
  /-- What the `select` receives. -/
  event : Event
  /-- The error of `idle.Close()`. -/
  close : Option E
  /-- The error of `idle.Wait()`. -/
  wait : Option E
  /-- The error value `imap.ParseSeqSet` returns in this pass if it rejects its argument. -/
  badSet : E
  /-- The result of `fetchCmd.Collect()`. -/
  collect : Except E (List FetchMessageBuffer)

/-! ## `mailbox/mailbox.go` -/

/-- Lines 201-206 of `fetch`: the body is the value of the last visited section without
specifier, or nil. -/
def bodyOf (message : FetchMessageBuffer) : GoString :=
  message.BodySection.foldl (fun body sv => if sv.1 = PartSpecifier.None then sv.2 else body) []

/-- The loop of `fetch` over the collected messages (lines 200-215). -/
def mailbox.fetch.loop {E : Type} (L : Std E) : List FetchMessageBuffer → List (Action E)
  | [] => []
  | message :: rest =>
    let body := bodyOf message
    match NewMessage L body with
    | .error _ => Action.logParseFailure message.SeqNum body.length :: mailbox.fetch.loop L rest
    | .ok msg => Action.publish msg :: mailbox.fetch.loop L rest

/-- The method `mailbox.fetch`: what it does and the error it returns; `collect` is the
result of `fetchCmd.Collect()`. A send on `m.messages` is recorded; it completes once the
consumer receives. -/
def mailbox.fetch {E : Type} (L : Std E) (seq : SeqSet)
    (collect : Except E (List FetchMessageBuffer)) : List (Action E) × Option E :=
  match collect with
  | .error err => ([Action.fetch seq], some err)
  | .ok messages => (Action.fetch seq :: mailbox.fetch.loop L messages, none)

/-- A runtime panic of Go. -/
inductive Panic where
  | closeOfNilChannel
  | closeOfClosedChannel
  deriving DecidableEq, Repr

/-- The builtin `close` on a channel. -/
def Chan.close : Chan → Except Panic Chan
  | .isNil => .error .closeOfNilChannel
  | .closed => .error .closeOfClosedChannel
  | .ready => .ok .closed

/-- The method `mailbox.Disconnect`: the state it leaves, or the panic it ends in. -/
def mailbox.Disconnect (m : mailbox) : Except Panic mailbox :=
  let m := if m.client then { m with client := false } else m
  match m.messages.close with
  | .error p => .error p
  | .ok c => .ok { m with messages := c }

/-- The variables of the goroutine of `WaitForMessages`: `m.numMessages`, `err` and
`recoverErr`. Two errors are equal here when Go's `==` on the interface values says so. -/
structure LoopState (E : Type) where
  numMessages : Nat
  err : Option E
  recoverErr : Option E
  deriving DecidableEq, Repr

/-- Lines 119-127, the head of a pass: `.error cause` when the goroutine sends the
unrecoverable error and returns, else the state and the log line written. -/
def WaitForMessages.check {E : Type} [DecidableEq E] (s : LoopState E) :
    Except E (LoopState E × List (Action E)) :=
  match s.err with
  | none => .ok (s, [])
  | some err =>
    if s.recoverErr = some err then .error err
    else .ok ({ s with recoverErr := some err }, [Action.logRecover err])

/-- The result of lines 129-173. -/
structure PassResult (E : Type) where
  state : LoopState E
  actions : List (Action E)
  /-- The goroutine returned (line 139). -/
  returned : Bool

/-- Lines 159-173, the end of a pass in which a push with the count `pushed` arrived and the
idle wait was closed: the new variables and what was done. `badSet` is the error value of
`imap.ParseSeqSet` should it reject its argument, `collect` the result of
`fetchCmd.Collect()`. -/
def WaitForMessages.reconcile {E : Type} (L : Std E) (s : LoopState E) (pushed : Nat)
    (badSet : E) (collect : Except E (List FetchMessageBuffer)) :
    LoopState E × List (Action E) :=
  if s.numMessages < pushed then
    match ParseSeqSet
        (formatUint ((s.numMessages + 1) % 2 ^ 32) ++ ":".toList ++ formatUint pushed) with
    | none => ({ s with err := some badSet }, [])
    | some seq =>
      match mailbox.fetch L seq collect with
      | (acts, some err) => ({ s with err := some err }, acts)
      | (acts, none) => ({ numMessages := pushed, err := none, recoverErr := none }, acts)
  else ({ numMessages := pushed, err := none, recoverErr := none }, [])

/-- Lines 129-173, the rest of a pass. -/
def WaitForMessages.pass {E : Type} (L : Std E) (s : LoopState E) (r : Round E) :
    PassResult E :=
  match r.idle with
  | some err => ⟨{ s with err := some err }, [.idleStart], false⟩
  | none =>
    match r.event with
    | .cancelled => ⟨{ s with err := none }, [.idleStart], true⟩
    | .pushed none => ⟨{ s with err := none }, [.idleStart], false⟩
    | .pushed (some pushed) =>
      match r.close with
      | some err => ⟨{ s with err := some err }, [.idleStart, .idleClose], false⟩
      | none =>
        match r.wait with
        | some err => ⟨{ s with err := some err }, [.idleStart, .idleClose, .idleWait], false⟩
        | none =>
          let rc := WaitForMessages.reconcile L s pushed r.badSet r.collect
          ⟨rc.1, [.idleStart, .idleClose, .idleWait] ++ rc.2, false⟩

/-- How far the goroutine got. -/
inductive Status where
  /-- Still in the loop: the rounds given are used up. -/
  | running
  /-- Returned at line 139, on cancellation. -/
  | stopped
  /-- Returned at line 122, after sending the unrecoverable error. -/
  | failed
  deriving DecidableEq, Repr

/-- A run of the goroutine: the final variables, everything it did, and how far it got. -/
structure Run (E : Type) where
  state : LoopState E
  trace : List (Action E)
  status : Status

/-- The `for` loop of `WaitForMessages` (lines 118-174), one `Round` per pass. -/
def WaitForMessages.loop {E : Type} [DecidableEq E] (L : Std E) :
    LoopState E → List (Round E) → Run E
  | s, [] =>
    match WaitForMessages.check s with
    | .error cause =>
      ⟨s, [.sendDone (some ⟨"unrecoverable error; ", cause⟩)], .failed⟩
    | .ok (s, acts) => ⟨s, acts, .running⟩
  | s, r :: rounds =>
    match WaitForMessages.check s with
    | .error cause =>
      ⟨s, [.sendDone (some ⟨"unrecoverable error; ", cause⟩)], .failed⟩
    | .ok (s, acts) =>
      let p := WaitForMessages.pass L s r
      if p.returned then ⟨p.state, acts ++ p.actions, .stopped⟩
      else
        let rest := WaitForMessages.loop L p.state rounds
        ⟨rest.state, acts ++ p.actions ++ rest.trace, rest.status⟩

/-- The goroutine started by `WaitForMessages` (lines 107-175), for a mailbox whose client
handle is present: the handler channel is made when it is nil, the loop runs, and on return
the deferred calls close the handler channel (if made here) and the completion channel. A
send on the completion channel is recorded; it completes once the caller receives. -/
def WaitForMessages {E : Type} [DecidableEq E] (L : Std E) (m : mailbox)
    (rounds : List (Round E)) : Run E :=
  let made : Bool := m.unliteralMailboxHandler = Chan.isNil
  let before : List (Action E) := if made then [.makeHandler] else []
  let run := WaitForMessages.loop L ⟨m.numMessages, none, none⟩ rounds
  match run.status with
  | .running => { run with trace := before ++ run.trace }
  | _ =>
    { run with
      trace := before ++ run.trace ++ (if made then [.closeHandler] else []) ++ [.closeDone] }

/-- The message of an action that is a send on `m.messages`. -/
def Action.published {E : Type} : Action E → Option Message
  | .publish msg => some msg
  | _ => none

/-- The sequence set of an action that is a fetch. -/
def Action.fetched {E : Type} : Action E → Option SeqSet
  | .fetch seq => some seq
  | _ => none

/-- The value of an action that is a send on the completion channel. -/
def Action.sent {E : Type} : Action E → Option (Option (WrappedError E))
  | .sendDone v => some v
  | _ => none

/-- Whether an action touches the completion channel `done`. -/
def Action.onDone {E : Type} : Action E → Bool
  | .sendDone _ => true
  | .closeDone => true
  | _ => false

/-! ## Inputs and checks used by the examples -/

/-- A library record that rejects every input; it stands for `other` where an example needs
a closed record. -/
def noStd : Std String where
  ReadMessage _ := .error "unsupported"
  ToLower s := s
  ParseMediaType _ := .error "unsupported"
  NextParts _ _ := ([], some "unsupported")
  quotedprintable _ := .error "unsupported"
  DecodeHeader _ := .error "unsupported"

/-- Whether `NewMessage` decodes `raw` and the result has this subject and plain text: the
three assertions of `TestMessageParseBody`. -/
def decodesTo {E : Type} (L : Std E) (raw subject text : GoString) : Bool :=
  match NewMessage L raw with
  | .ok msg =>
    (match msg.Subject L with
      | .ok s => s == subject
      | .error _ => false) &&
    (match (msg.PlainText : Except (DecodeError E) GoString) with
      | .ok t => t == text
      | .error _ => false)
  | .error _ => false

/-- A multipart/alternative message whose only part has no header at all. -/
def orphanPartMessage : GoString :=
  "Content-Type: multipart/alternative; boundary=b\n\n--b\n\norphan\n--b--\n".toList

/-- A message with a plain text body. -/
def plainMessage : GoString :=
  "Subject: Hi\nContent-Type: Text/Plain; charset=us-ascii\n\nline one\nline two\n".toList

/-- A multipart/alternative message with a plain and an HTML part. -/
def twoPartMessage : GoString :=
  ("Content-Type: multipart/alternative; boundary=b\n\n--b\n" ++
    "Content-Type: text/plain; charset=us-ascii\n\nHello\n--b\n" ++
    "Content-Type: text/html\n\n<b>Hello</b>\n--b--\n").toList

/-- A mailbox after a `Connect` that found three messages. -/
def connectedMailbox : mailbox :=
  { New "imap.example.org:993".toList "bob".toList "secret".toList "inbox".toList with
    client := true, numMessages := 3 }

/-- A mailbox whose password holds the character of the mask. -/
def passwordMailbox : mailbox :=
  New "imap.example.org:993".toList "bob".toList "a*".toList "inbox".toList

/-- A Go error value as the operator `==` sees it: `addr` is the pointer that the interface
holds and `text` is what `Error()` returns. Two values built by two calls have different
pointers and are different errors for `==`, whatever their type and text. -/
structure GoError where
  addr : Nat
  text : String
  deriving DecidableEq, Repr

/-- A library record that rejects every input with the error `err`. -/
def refusingStd {E : Type} (err : E) : Std E where
  ReadMessage _ := .error err
  ToLower s := s
  ParseMediaType _ := .error err
  NextParts _ _ := ([], some err)
  quotedprintable _ := .error err
  DecodeHeader _ := .error err

/-- A round in which idle-start fails with `err`. -/
def idleRefused (err : GoError) : Round GoError :=
  { idle := some err, event := .cancelled, close := none, wait := none,
    badSet := ⟨0, "bad set"⟩, collect := .ok [] }

/-- Three refusals of the IDLE command with the same text, each a value of its own, as the
client library builds one error per response of the server. -/
def threeRefusals : List GoError :=
  [⟨101, "imap: NO IDLE refused"⟩, ⟨102, "imap: NO IDLE refused"⟩,
    ⟨103, "imap: NO IDLE refused"⟩]

/-- A multipart/alternative message whose plain part spells its type `Text/Plain`. -/
def upperCasePartMessage : GoString :=
  ("Content-Type: multipart/alternative; boundary=b\n\n--b\n" ++
    "Content-Type: Text/Plain\n\nHello\n--b--\n").toList

/-- A multipart/alternative message with two plain parts. -/
def twoPlainPartsMessage : GoString :=
  ("Content-Type: multipart/alternative; boundary=b\n\n--b\n" ++
    "Content-Type: text/plain\n\nfirst\n--b\n" ++
    "Content-Type: text/plain\n\nsecond\n--b--\n").toList

/-- A multipart/alternative message that ends inside its HTML part, without the closing
delimiter. -/
def truncatedMessage : GoString :=
  ("Content-Type: multipart/alternative; boundary=b\n\n--b\n" ++
    "Content-Type: text/plain\n\nHello\n--b\n" ++
    "Content-Type: text/html\n\n<b>Hello</b>\n").toList

/-- A multipart/alternative message whose boundary parameter has no value. -/
def emptyBoundaryMessage : GoString :=
  ("Content-Type: multipart/alternative; boundary=\n\n--b\n" ++
    "Content-Type: text/plain\n\nHello\n--b--\n").toList

/-- A batch of three fetched messages: `plainMessage`, a text that is no message, and
`twoPartMessage` after a header section. -/
def sampleBatch : List FetchMessageBuffer :=
  [ ⟨4, [(PartSpecifier.None, plainMessage)]⟩,
    ⟨5, [(PartSpecifier.None, "no header here".toList)]⟩,
    ⟨6, [(PartSpecifier.Header, "Subject: other\n\n".toList),
         (PartSpecifier.None, twoPartMessage)]⟩ ]

/-- A round in which idle starts and the `select` receives the cancellation. -/
def cancelRound : Round String :=
  { idle := none, event := .cancelled, close := none, wait := none, badSet := "bad set",
    collect := .ok [] }

/-- A round in which a push with count `pushed` arrives and closing the idle wait works;
`collect` is the result of the fetch. -/
def pushRound (pushed : Nat) (collect : Except String (List FetchMessageBuffer)) :
    Round String :=
  { idle := none, event := .pushed (some pushed), close := none, wait := none,
    badSet := "bad set", collect := collect }

/-! # Theorems -/

/-! ## Facts about `ReplaceAll` -/

section Replace

variable {α : Type}

theorem isPrefixOf_iff_isPrefix [DecidableEq α] (p s : List α) : p.isPrefixOf s = true ↔ p <+: s := by
  simp

/-- A list that avoids the first character of `new` and is a prefix of the scanned text
was already a prefix of the original text. -/
theorem prefix_of_prefix_replaceScan [DecidableEq α] (old new : List α) (x : α) (xs : List α)
    (hnew : new = x :: xs) :
    ∀ (s p : List α), x ∉ p → p <+: replaceScan old new 0 s → p <+: s := by
  intro s
  induction s with
  | nil =>
    intro p _ hp
    simpa [replaceScan] using hp
  | cons c s ih =>
    intro p hx hp
    cases p with
    | nil => exact List.nil_prefix
    | cons y p =>
      by_cases hm : old.isPrefixOf (c :: s) = true
      · rw [replaceScan, if_pos hm, hnew] at hp
        simp only [List.cons_append, List.cons_prefix_cons] at hp
        exact absurd (by simp [hp.1]) hx
      · rw [replaceScan, if_neg hm] at hp
        rw [List.cons_prefix_cons] at hp ⊢
        refine ⟨hp.1, ih p (fun h => hx (List.mem_cons_of_mem _ h)) hp.2⟩

/-- An occurrence of `l` inside `a ++ b` uses an element of `a` or lies inside `b`. -/
theorem infix_append_cases (l : List α) (hl : l ≠ []) :
    ∀ (a b : List α), l <:+: a ++ b → (∃ x ∈ a, x ∈ l) ∨ l <:+: b := by
  intro a
  induction a with
  | nil => intro b h; exact Or.inr (by simpa using h)
  | cons x a ih =>
    intro b h
    rw [List.cons_append, List.infix_cons_iff] at h
    rcases h with h | h
    · cases l with
      | nil => exact absurd rfl hl
      | cons y l =>
        rw [List.cons_prefix_cons] at h
        exact Or.inl ⟨x, by simp, by simp [h.1]⟩
    · rcases ih b h with ⟨z, hz, hzl⟩ | h
      · exact Or.inl ⟨z, List.mem_cons_of_mem _ hz, hzl⟩
      · exact Or.inr h

/-- When the replacement is non-empty and shares no character with `old`, the scanned text
holds no occurrence of `old`. -/
theorem not_infix_replaceScan [DecidableEq α] (old new : List α) (hold : old ≠ []) (hnew : new ≠ [])
    (hdisj : ∀ x ∈ new, x ∉ old) :
    ∀ (s : List α) (k : Nat), ¬ old <:+: replaceScan old new k s := by
  obtain ⟨x, xs, hx⟩ : ∃ x xs, new = x :: xs := by
    cases new with
    | nil => exact absurd rfl hnew
    | cons x xs => exact ⟨x, xs, rfl⟩
  intro s
  induction s with
  | nil =>
    intro k h
    cases k <;> simp [replaceScan] at h <;> exact hold h
  | cons c s ih =>
    intro k h
    cases k with
    | succ k => rw [replaceScan] at h; exact ih k h
    | zero =>
      by_cases hm : old.isPrefixOf (c :: s) = true
      · rw [replaceScan, if_pos hm] at h
        rcases infix_append_cases old hold _ _ h with ⟨z, hz, hzo⟩ | h
        · exact hdisj z hz hzo
        · exact ih _ h
      · rw [replaceScan, if_neg hm] at h
        rw [List.infix_cons_iff] at h
        rcases h with h | h
        · cases old with
          | nil => exact absurd rfl hold
          | cons o os =>
            rw [List.cons_prefix_cons] at h
            have hxo : x ∉ os := fun hmem =>
              hdisj x (by simp [hx]) (List.mem_cons_of_mem _ hmem)
            have := prefix_of_prefix_replaceScan (o :: os) new x xs hx s os hxo h.2
            apply hm
            rw [isPrefixOf_iff_isPrefix, List.cons_prefix_cons]
            exact ⟨h.1, this⟩
        · exact ih _ h

end Replace

/-! ## Decimal text of a `uint32` and `ParseSeqSet` -/

theorem toDigitsCore_append (fuel : Nat) :
    ∀ (n : Nat) (ds : List Char),
      Nat.toDigitsCore 10 fuel n ds = Nat.toDigitsCore 10 fuel n [] ++ ds := by
  induction fuel with
  | zero => intro n ds; simp [Nat.toDigitsCore]
  | succ fuel ih =>
    intro n ds
    simp only [Nat.toDigitsCore]
    split
    · simp
    · rw [ih (n / 10) (_ :: ds), ih (n / 10) [_]]
      simp

theorem toDigitsCore_fuel (f1 : Nat) :
    ∀ (n f2 : Nat), n < f1 → n < f2 →
      Nat.toDigitsCore 10 f1 n [] = Nat.toDigitsCore 10 f2 n [] := by
  induction f1 with
  | zero => intro n f2 h; omega
  | succ f1 ih =>
    intro n f2 h1 h2
    cases f2 with
    | zero => omega
    | succ f2 =>
      simp only [Nat.toDigitsCore]
      split
      · rfl
      · rename_i hn
        rw [toDigitsCore_append f1, toDigitsCore_append f2]
        rw [ih (n / 10) f2 (by omega) (by omega)]

theorem formatUint_small (n : Nat) (h : n < 10) : formatUint n = [Nat.digitChar n] := by
  have h0 : n / 10 = 0 := by omega
  have h1 : n % 10 = n := by omega
  simp [formatUint, Nat.toDigits, Nat.toDigitsCore, h0, h1]

theorem formatUint_large (n : Nat) (h : 10 ≤ n) :
    formatUint n = formatUint (n / 10) ++ [Nat.digitChar (n % 10)] := by
  have h0 : n / 10 ≠ 0 := by omega
  simp only [formatUint, Nat.toDigits]
  rw [Nat.toDigitsCore]
  simp only [h0, if_false]
  rw [toDigitsCore_append]
  rw [toDigitsCore_fuel n (n / 10) (n / 10 + 1) (by omega) (by omega)]

theorem digitChar_toNat (k : Nat) (h : k < 10) : (Nat.digitChar k).toNat = 48 + k := by
  interval_cases k <;> rfl

theorem formatUint_ne_nil (n : Nat) : formatUint n ≠ [] := by
  by_cases h : n < 10
  · rw [formatUint_small n h]; simp
  · rw [formatUint_large n (by omega)]; simp

theorem formatUint_digits (n : Nat) : ∀ c ∈ formatUint n, 48 ≤ c.toNat ∧ c.toNat ≤ 57 := by
  induction n using Nat.strong_induction_on with
  | _ n ih =>
    intro c hc
    by_cases h : n < 10
    · rw [formatUint_small n h] at hc
      simp only [List.mem_singleton] at hc
      subst hc
      rw [digitChar_toNat n h]; omega
    · rw [formatUint_large n (by omega)] at hc
      rcases List.mem_append.1 hc with hc | hc
      · exact ih (n / 10) (by omega) c hc
      · simp only [List.mem_singleton] at hc
        subst hc
        rw [digitChar_toNat _ (Nat.mod_lt _ (by decide))]; omega

theorem formatUint_head (n : Nat) (hn : 0 < n) : (formatUint n).head? ≠ some '0' := by
  induction n using Nat.strong_induction_on with
  | _ n ih =>
    by_cases h : n < 10
    · rw [formatUint_small n h]
      simp only [List.head?_cons, ne_eq, Option.some.injEq]
      intro hc
      have := congrArg Char.toNat hc
      rw [digitChar_toNat n h] at this
      have h48 : '0'.toNat = 48 := rfl
      omega
    · rw [formatUint_large n (by omega)]
      have hne := formatUint_ne_nil (n / 10)
      rw [List.head?_append_of_ne_nil _ hne]
      exact ih (n / 10) (by omega) (by omega)

theorem foldl_parseStep_formatUint (n : Nat) (hn : n < 2 ^ 32) :
    (formatUint n).foldl parseStep (some 0) = some n := by
  induction n using Nat.strong_induction_on with
  | _ n ih =>
    by_cases h : n < 10
    · rw [formatUint_small n h]
      have h48 : '0'.toNat = 48 := rfl
      have h57 : '9'.toNat = 57 := rfl
      simp only [List.foldl, parseStep, digitChar_toNat n h, h48, h57]
      rw [if_pos (by omega), if_pos (by omega)]
      congr 1; omega
    · rw [formatUint_large n (by omega), List.foldl_append, ih (n / 10) (by omega) (by omega)]
      have h48 : '0'.toNat = 48 := rfl
      have h57 : '9'.toNat = 57 := rfl
      have hm : n % 10 < 10 := Nat.mod_lt _ (by decide)
      simp only [List.foldl, parseStep, digitChar_toNat _ hm, h48, h57]
      rw [if_pos (by omega), if_pos (by omega)]
      congr 1; omega

theorem ParseUint32_formatUint (n : Nat) (hn : n < 2 ^ 32) :
    ParseUint32 (formatUint n) = some n := by
  unfold ParseUint32
  have hne := formatUint_ne_nil n
  cases h : formatUint n with
  | nil => exact absurd h hne
  | cons c cs => simp only []; rw [← h]; exact foldl_parseStep_formatUint n hn

theorem parseNum_formatUint (n : Nat) (h0 : 0 < n) (hn : n < 2 ^ 32) :
    parseNum (formatUint n) = some n := by
  unfold parseNum
  rw [ParseUint32_formatUint n hn]
  simp only []
  rw [if_pos (formatUint_head n h0)]

theorem Split_of_not_mem (sep : Char) : ∀ (s : GoString), sep ∉ s → Split s sep = [s] := by
  intro s
  induction s with
  | nil => intro _; rfl
  | cons c s ih =>
    intro h
    have hc : c ≠ sep := fun e => h (by simp [e])
    have hs : sep ∉ s := fun e => h (List.mem_cons_of_mem _ e)
    rw [Split, if_neg hc, ih hs]

theorem formatUint_not_mem (n : Nat) (c : Char) (hc : c.toNat < 48 ∨ 57 < c.toNat) :
    c ∉ formatUint n := by
  intro h
  have := formatUint_digits n c h
  omega

theorem takeWhile_append_sep (a b : GoString) (sep : Char) (h : sep ∉ a) :
    (a ++ sep :: b).takeWhile (· ≠ sep) = a ∧ (a ++ sep :: b).dropWhile (· ≠ sep) = sep :: b := by
  induction a with
  | nil => simp
  | cons c a ih =>
    have hc : c ≠ sep := fun e => h (by simp [e])
    have hs : sep ∉ a := fun e => h (List.mem_cons_of_mem _ e)
    obtain ⟨h1, h2⟩ := ih hs
    have hd : decide (c ≠ sep) = true := decide_eq_true hc
    simp only [List.cons_append, List.takeWhile_cons, List.dropWhile_cons, hd, if_true, h1, h2,
      and_self]

/-- The text `a:b` built by line 161 parses to the single range `(a, b)`. -/
theorem ParseSeqSet_range (a b : Nat) (ha : 0 < a) (hab : a ≤ b) (hb : b < 2 ^ 32) :
    ParseSeqSet (formatUint a ++ ":".toList ++ formatUint b) = some [(a, b)] := by
  have hcolonA : ':' ∉ formatUint a := formatUint_not_mem a ':' (Or.inr (by decide))
  have hcolonB : ':' ∉ formatUint b := formatUint_not_mem b ':' (Or.inr (by decide))
  have hcommaA : ',' ∉ formatUint a := formatUint_not_mem a ',' (Or.inl (by decide))
  have hcommaB : ',' ∉ formatUint b := formatUint_not_mem b ',' (Or.inl (by decide))
  have hshape : formatUint a ++ ":".toList ++ formatUint b = formatUint a ++ ':' :: formatUint b := by
    simp
  rw [hshape]
  have hcomma : ',' ∉ formatUint a ++ ':' :: formatUint b := by
    simp only [List.mem_append, List.mem_cons, not_or]
    exact ⟨hcommaA, by decide, hcommaB⟩
  unfold ParseSeqSet
  rw [Split_of_not_mem ',' _ hcomma]
  have hmem : ':' ∈ formatUint a ++ ':' :: formatUint b := by simp
  have htd := takeWhile_append_sep (formatUint a) (formatUint b) ':' hcolonA
  have hrange : parseSeqRange (formatUint a ++ ':' :: formatUint b) = some (a, b) := by
    unfold parseSeqRange
    rw [if_pos hmem, htd.1, htd.2]
    simp only [List.drop_succ_cons, List.drop_zero]
    rw [parseNum_formatUint a ha (by omega), parseNum_formatUint b (by omega) hb]
    simp only []
    rw [if_neg (by omega)]
  simp only [parseRanges, hrange]

/-! ## `debugWriter.Write` -/

/-- C10, as stated, fails: with the password `a*` and the trace text `aa*`, the logged text
is `a***`, which contains the password. -/
theorem debugWriter_Write_leaks_star_password :
    passwordMailbox.password = "a*".toList ∧ passwordMailbox.password ≠ [] ∧
      (debugWriter.Write ⟨passwordMailbox⟩ "aa*".toList).logged = "a***".toList ∧
      passwordMailbox.password <:+: (debugWriter.Write ⟨passwordMailbox⟩ "aa*".toList).logged := by
  refine ⟨rfl, by decide, by decide, ?_⟩
  exact ⟨"".toList, "**".toList, by decide⟩

/-- C10, amended: for every non-empty password without the character `*` and every trace
text, the text logged by `debugWriter.Write` does not contain the password, and `Write`
returns `len(b)` and a nil error. -/
theorem debugWriter_Write_redacts (w : debugWriter) (b : GoString)
    (hne : w.mailbox.password ≠ []) (hstar : '*' ∉ w.mailbox.password) :
    ¬ w.mailbox.password <:+: (w.Write b).logged ∧
      (w.Write b).n = b.length ∧ (w.Write b).err = none := by
  refine ⟨?_, rfl, rfl⟩
  have hmask : ∀ x ∈ "***".toList, x ∉ w.mailbox.password := by
    intro x hx hxp
    have : x = '*' := by simpa using hx
    exact hstar (this ▸ hxp)
  have hneq : w.mailbox.password ≠ "***".toList := by
    intro h
    exact hstar (by rw [h]; decide)
  simp only [debugWriter.Write, ReplaceAll, if_neg hneq, if_neg hne]
  exact not_infix_replaceScan w.mailbox.password _ hne (by decide) hmask b 0

/-- C10, amended, on a concrete trace: with the password `secret`, the line of a login
command is logged with `***` in its place and without the password. -/
theorem debugWriter_Write_redacts_witness :
    (debugWriter.Write ⟨connectedMailbox⟩ "A1 LOGIN bob secret".toList).logged
        = "A1 LOGIN bob ***".toList ∧
      ¬ "secret".toList
        <:+: (debugWriter.Write ⟨connectedMailbox⟩ "A1 LOGIN bob secret".toList).logged :=
  ⟨by decide,
    (debugWriter_Write_redacts ⟨connectedMailbox⟩ "A1 LOGIN bob secret".toList
      (by decide) (by decide)).1⟩

/-! ## `mailbox.Disconnect` -/

/-- C9, on the code: after a `Disconnect` that completed, a second `Disconnect` always ends
in the panic `close of closed channel`; it never completes. -/
theorem Disconnect_twice_panics (m m1 : mailbox) (h : m.Disconnect = .ok m1) :
    m1.Disconnect = .error Panic.closeOfClosedChannel := by
  have hm : m1.messages = Chan.closed := by
    unfold mailbox.Disconnect at h
    cases hc : m.client <;> cases hmsg : m.messages <;>
      simp [hc, hmsg, Chan.close] at h <;> subst h <;> rfl
  unfold mailbox.Disconnect
  cases hc : m1.client <;> simp [hc, hm, Chan.close]

/-- C9, on a concrete mailbox: the first `Disconnect` drops the client handle and closes
the message channel, and the second one panics. -/
theorem Disconnect_twice_panics_witness :
    connectedMailbox.Disconnect
        = .ok { connectedMailbox with client := false, messages := Chan.closed } ∧
      ({ connectedMailbox with client := false, messages := Chan.closed } : mailbox).Disconnect
        = .error Panic.closeOfClosedChannel :=
  ⟨rfl, Disconnect_twice_panics connectedMailbox _ rfl⟩

/-! ## `mailbox.fetch` -/

theorem fetch_loop_published {E : Type} (L : Std E) (batch : List FetchMessageBuffer) :
    (mailbox.fetch.loop L batch).filterMap Action.published
      = batch.filterMap (fun message => (NewMessage L (bodyOf message)).toOption) := by
  induction batch with
  | nil => rfl
  | cons message rest ih =>
    unfold mailbox.fetch.loop
    cases h : NewMessage L (bodyOf message) <;>
      simp [h, Action.published, Except.toOption, ih]

/-- The body that `fetch` decodes is the value of the last body section without specifier
among those of the message, and nil when there is none. -/
theorem foldl_last_section (l : List (PartSpecifier × GoString)) :
    ∀ init : GoString,
      l.foldl (fun body sv => if sv.1 = PartSpecifier.None then sv.2 else body) init
        = (((l.filter (fun sv => sv.1 = PartSpecifier.None)).getLast?).map Prod.snd).getD init := by
  induction l with
  | nil => intro init; rfl
  | cons sv l ih =>
    intro init
    rw [List.foldl_cons, ih]
    by_cases hp : sv.1 = PartSpecifier.None
    · rw [if_pos hp, List.filter_cons_of_pos (by simpa using hp)]
      cases hl : l.filter (fun sv => sv.1 = PartSpecifier.None) with
      | nil => rfl
      | cons x xs => rw [List.getLast?_cons_cons]; rfl
    · rw [if_neg hp, List.filter_cons_of_neg (by simpa using hp)]

/-- C7: for every batch that `Collect` returns without error, `mailbox.fetch` returns a nil
error and sends on the message channel exactly the messages of the batch whose raw bytes
`NewMessage` decodes, in the order of the batch; the raw bytes of a message are those of its
last body section without specifier (nil when it has none). A message that does not decode
is left out and the messages after it are still sent. -/
theorem fetch_publishes_decoded {E : Type} (L : Std E) (seq : SeqSet)
    (batch : List FetchMessageBuffer) :
    (mailbox.fetch L seq (.ok batch)).2 = none ∧
      (mailbox.fetch L seq (.ok batch)).1.filterMap Action.published
        = batch.filterMap (fun message =>
            (NewMessage L
              ((((message.BodySection.filter (fun sv => sv.1 = PartSpecifier.None)).getLast?).map
                Prod.snd).getD [])).toOption) := by
  refine ⟨rfl, ?_⟩
  have hbody : ∀ message : FetchMessageBuffer,
      (((message.BodySection.filter (fun sv => sv.1 = PartSpecifier.None)).getLast?).map
        Prod.snd).getD [] = bodyOf message :=
    fun message => (foldl_last_section message.BodySection []).symm
  simp only [hbody]
  simp [mailbox.fetch, Action.published, fetch_loop_published]

/-! ## `NewMessage` and `PlainText` -/

/-- C4: when the header block of a raw message parses and its lower-cased `Content-Type`
starts with `text/plain`, `NewMessage` succeeds and `PlainText` on the result succeeds with
exactly the body bytes. -/
theorem NewMessage_text_plain {E : Type} (L : Std E) (rawBody : GoString) (base : MailMessage)
    (hread : L.ReadMessage rawBody = .ok base)
    (hct : HasPrefix (L.ToLower (base.Header.Get "Content-Type".toList)) "text/plain".toList
      = true) :
    ∃ msg, NewMessage L rawBody = .ok msg ∧
      (msg.PlainText : Except (DecodeError E) GoString) = .ok base.Body := by
  refine ⟨{ base := base, parts := [("text/plain".toList, base.Body)] }, ?_, ?_⟩
  · simp only [NewMessage, hread]
    rw [if_pos hct]
    rfl
  · rfl

/-! ## The watch loop -/

theorem fetch_loop_fetched {E : Type} (L : Std E) (batch : List FetchMessageBuffer) :
    (mailbox.fetch.loop L batch).filterMap Action.fetched = [] := by
  induction batch with
  | nil => rfl
  | cons message rest ih =>
    unfold mailbox.fetch.loop
    cases h : NewMessage L (bodyOf message) <;> simp [h, Action.fetched, ih]

theorem fetch_loop_onDone {E : Type} (L : Std E) (batch : List FetchMessageBuffer) :
    (mailbox.fetch.loop L batch).filter Action.onDone = [] := by
  induction batch with
  | nil => rfl
  | cons message rest ih =>
    unfold mailbox.fetch.loop
    cases h : NewMessage L (bodyOf message) <;> simp [h, Action.onDone, ih]

theorem fetch_onDone {E : Type} (L : Std E) (seq : SeqSet)
    (collect : Except E (List FetchMessageBuffer)) :
    (mailbox.fetch L seq collect).1.filter Action.onDone = [] := by
  cases collect with
  | error err => simp [mailbox.fetch, Action.onDone]
  | ok batch => simp [mailbox.fetch, Action.onDone, fetch_loop_onDone]

/-- C1: at lines 159-173 of a pass of the loop, for every last-known count `n` and pushed
count `pushed` (a `uint32`) with `n < pushed`: the lower bound `n + 1` does not wrap, exactly
one fetch is issued, for the range `(n+1)..pushed` of `pushed - n` sequence numbers, and the
last-known count becomes `pushed` when the fetch succeeds and stays `n` when it fails. A
pass in which idle starts, the push arrives and the idle wait is closed does just this
after its three idle calls. -/
theorem reconcile_fetches_new_range {E : Type} (L : Std E) (s : LoopState E) (pushed : Nat)
    (badSet : E) (collect : Except E (List FetchMessageBuffer))
    (hlt : s.numMessages < pushed) (hp : pushed < 2 ^ 32) :
    (s.numMessages + 1) % 2 ^ 32 = s.numMessages + 1 ∧
      (WaitForMessages.reconcile L s pushed badSet collect).2.filterMap Action.fetched
        = [[(s.numMessages + 1, pushed)]] ∧
      SeqSet.size [(s.numMessages + 1, pushed)] = pushed - s.numMessages ∧
      (∀ batch, collect = .ok batch →
        (WaitForMessages.reconcile L s pushed badSet collect).1
          = { numMessages := pushed, err := none, recoverErr := none }) ∧
      (∀ err, collect = .error err →
        (WaitForMessages.reconcile L s pushed badSet collect).1 = { s with err := some err }) ∧
      (∀ r : Round E, r.idle = none → r.event = .pushed (some pushed) → r.close = none →
        r.wait = none → r.badSet = badSet → r.collect = collect →
        WaitForMessages.pass L s r
          = ⟨(WaitForMessages.reconcile L s pushed badSet collect).1,
              [.idleStart, .idleClose, .idleWait]
                ++ (WaitForMessages.reconcile L s pushed badSet collect).2, false⟩) := by
  have hwrap : (s.numMessages + 1) % 2 ^ 32 = s.numMessages + 1 :=
    Nat.mod_eq_of_lt (by omega)
  have hparse := ParseSeqSet_range (s.numMessages + 1) pushed (by omega) (by omega) hp
  have hrec : WaitForMessages.reconcile L s pushed badSet collect =
      match mailbox.fetch L [(s.numMessages + 1, pushed)] collect with
      | (acts, some err) => ({ s with err := some err }, acts)
      | (acts, none) => ({ numMessages := pushed, err := none, recoverErr := none }, acts) := by
    unfold WaitForMessages.reconcile
    rw [if_pos hlt, hwrap, hparse]
  refine ⟨hwrap, ?_, ?_, ?_, ?_, ?_⟩
  · rw [hrec]
    cases hc : collect with
    | error err => simp [mailbox.fetch, Action.fetched]
    | ok batch => simp [mailbox.fetch, Action.fetched, fetch_loop_fetched]
  · simp only [SeqSet.size, List.map, List.sum_cons, List.sum_nil]
    omega
  · intro batch hc
    rw [hrec, hc]
    rfl
  · intro err hc
    rw [hrec, hc]
    rfl
  · intro r hidle hevent hclose hwait hbad hcollect
    unfold WaitForMessages.pass
    simp only [hidle, hevent, hclose, hwait, hbad, hcollect]

theorem reconcile_onDone {E : Type} (L : Std E) (s : LoopState E) (pushed : Nat)
    (badSet : E) (collect : Except E (List FetchMessageBuffer)) :
    (WaitForMessages.reconcile L s pushed badSet collect).2.filter Action.onDone = [] := by
  unfold WaitForMessages.reconcile
  repeat' split
  all_goals first
    | rfl
    | (rename_i heq
       have h1 := congrArg Prod.fst heq
       dsimp only at h1
       rw [← h1]
       exact fetch_onDone L _ collect)

theorem pass_onDone {E : Type} (L : Std E) (s : LoopState E) (r : Round E) :
    (WaitForMessages.pass L s r).actions.filter Action.onDone = [] := by
  unfold WaitForMessages.pass
  repeat' split
  all_goals first
    | rfl
    | simp [Action.onDone, reconcile_onDone]

theorem check_onDone {E : Type} [DecidableEq E] (s s1 : LoopState E) (acts : List (Action E))
    (h : WaitForMessages.check s = .ok (s1, acts)) : acts.filter Action.onDone = [] := by
  unfold WaitForMessages.check at h
  split at h
  · cases h; rfl
  · split at h
    · cases h
    · cases h; rfl

/-- What the loop does to the completion channel: nothing unless it fails, and exactly one
send of the wrapped error when it fails. -/
theorem loop_onDone {E : Type} [DecidableEq E] (L : Std E) (rounds : List (Round E)) :
    ∀ s : LoopState E,
      ((WaitForMessages.loop L s rounds).status ≠ Status.failed ∧
        (WaitForMessages.loop L s rounds).trace.filter Action.onDone = []) ∨
      ((WaitForMessages.loop L s rounds).status = Status.failed ∧
        ∃ cause, (WaitForMessages.loop L s rounds).trace.filter Action.onDone
          = [Action.sendDone (some ⟨"unrecoverable error; ", cause⟩)]) := by
  induction rounds with
  | nil =>
    intro s
    unfold WaitForMessages.loop
    cases hc : WaitForMessages.check s with
    | error cause => exact Or.inr ⟨rfl, cause, rfl⟩
    | ok v =>
      obtain ⟨s1, acts⟩ := v
      exact Or.inl ⟨by simp, check_onDone s s1 acts hc⟩
  | cons r rounds ih =>
    intro s
    unfold WaitForMessages.loop
    cases hc : WaitForMessages.check s with
    | error cause => exact Or.inr ⟨rfl, cause, rfl⟩
    | ok v =>
      obtain ⟨s1, acts⟩ := v
      have hacts := check_onDone s s1 acts hc
      have hpass := pass_onDone L s1 r
      simp only []
      split
      · exact Or.inl ⟨by simp, by simp [hacts, hpass]⟩
      · rcases ih (WaitForMessages.pass L s1 r).state with ⟨hs, ht⟩ | ⟨hs, cause, ht⟩
        · exact Or.inl ⟨hs, by simp [hacts, hpass, ht]⟩
        · exact Or.inr ⟨hs, cause, by simp [hacts, hpass, ht]⟩

/-- C5, amended: in every run of the goroutine the completion channel sees nothing while the
loop runs; when the loop ends by cancellation at the select, no value is sent and the channel
is closed (a receiver then reads nil, the zero value); when it ends in the failed state,
exactly one value is sent, the non-nil error wrapping the recurring cause, and then the
channel is closed. -/
theorem WaitForMessages_done_channel {E : Type} [DecidableEq E] (L : Std E) (m : mailbox)
    (rounds : List (Round E)) :
    match (WaitForMessages L m rounds).status with
    | .running => (WaitForMessages L m rounds).trace.filter Action.onDone = []
    | .stopped => (WaitForMessages L m rounds).trace.filter Action.onDone = [Action.closeDone]
    | .failed => ∃ cause, (WaitForMessages L m rounds).trace.filter Action.onDone
        = [Action.sendDone (some ⟨"unrecoverable error; ", cause⟩), Action.closeDone] := by
  have h := loop_onDone L rounds ⟨m.numMessages, none, none⟩
  unfold WaitForMessages
  cases hst : (WaitForMessages.loop L ⟨m.numMessages, none, none⟩ rounds).status with
  | running =>
    rcases h with ⟨_, ht⟩ | ⟨hs, _⟩
    · cases hm : m.unliteralMailboxHandler <;> simp [hst, ht, hm, Action.onDone]
    · rw [hst] at hs; cases hs
  | stopped =>
    rcases h with ⟨_, ht⟩ | ⟨hs, _⟩
    · cases hm : m.unliteralMailboxHandler <;> simp [hst, ht, hm, Action.onDone]
    · rw [hst] at hs; cases hs
  | failed =>
    rcases h with ⟨hs, _⟩ | ⟨_, cause, ht⟩
    · exact absurd hst hs
    · simp only [hst]
      refine ⟨cause, ?_⟩
      cases hm : m.unliteralMailboxHandler <;> simp [ht, Action.onDone]

theorem loop_of_check_error {E : Type} [DecidableEq E] (L : Std E) (s : LoopState E)
    (cause : E) (rounds : List (Round E)) (h : WaitForMessages.check s = .error cause) :
    WaitForMessages.loop L s rounds
      = ⟨s, [.sendDone (some ⟨"unrecoverable error; ", cause⟩)], .failed⟩ := by
  cases rounds <;> simp [WaitForMessages.loop, h]

theorem loop_nil_of_check_ok {E : Type} [DecidableEq E] (L : Std E) (s s1 : LoopState E)
    (acts : List (Action E)) (h : WaitForMessages.check s = .ok (s1, acts)) :
    WaitForMessages.loop L s [] = ⟨s1, acts, .running⟩ := by
  simp [WaitForMessages.loop, h]

theorem loop_cons_of_check_ok {E : Type} [DecidableEq E] (L : Std E) (s s1 : LoopState E)
    (acts : List (Action E)) (r : Round E) (rounds : List (Round E))
    (h : WaitForMessages.check s = .ok (s1, acts))
    (hret : (WaitForMessages.pass L s1 r).returned = false) :
    WaitForMessages.loop L s (r :: rounds)
      = ⟨(WaitForMessages.loop L (WaitForMessages.pass L s1 r).state rounds).state,
          acts ++ (WaitForMessages.pass L s1 r).actions
            ++ (WaitForMessages.loop L (WaitForMessages.pass L s1 r).state rounds).trace,
          (WaitForMessages.loop L (WaitForMessages.pass L s1 r).state rounds).status⟩ := by
  simp [WaitForMessages.loop, h, hret]

theorem pass_of_idle_error {E : Type} (L : Std E) (s : LoopState E) (r : Round E) (err : E)
    (h : r.idle = some err) :
    WaitForMessages.pass L s r = ⟨{ s with err := some err }, [.idleStart], false⟩ := by
  simp [WaitForMessages.pass, h]

theorem pass_actions_head {E : Type} (L : Std E) (s : LoopState E) (r : Round E) :
    ∃ tl, (WaitForMessages.pass L s r).actions = Action.idleStart :: tl := by
  unfold WaitForMessages.pass
  repeat' split
  all_goals exact ⟨_, rfl⟩

theorem loop_trace_head {E : Type} [DecidableEq E] (L : Std E) (s s1 : LoopState E)
    (acts : List (Action E)) (r : Round E) (rounds : List (Round E))
    (h : WaitForMessages.check s = .ok (s1, acts)) :
    ∃ tl, (WaitForMessages.loop L s (r :: rounds)).trace = acts ++ Action.idleStart :: tl := by
  obtain ⟨tl, htl⟩ := pass_actions_head L s1 r
  unfold WaitForMessages.loop
  simp only [h]
  split
  · exact ⟨tl, by simp [htl]⟩
  · exact ⟨tl ++ (WaitForMessages.loop L (WaitForMessages.pass L s1 r).state rounds).trace,
      by simp [htl]⟩

theorem check_of_no_error {E : Type} [DecidableEq E] (s : LoopState E) (h : s.err = none) :
    WaitForMessages.check s = .ok (s, []) := by
  simp [WaitForMessages.check, h]

/-- The loop reaches the failed state through the `==` of line 120 only. From the head of a
pass with no pending error, let idle-start fail with the value `e1` and then with `e2`. If
`e2` is the very value `e1` (as with a sentinel error), the loop stops in the failed state and
the one value sent is the error wrapping it. If `e2` is another value (and `e1` was not
already the recovery baseline), the loop does not stop: it logs, makes `e2` the recovery
baseline, keeps running, and its next action is a new idle-start. -/
theorem loop_idle_start_failures {E : Type} [DecidableEq E] (L : Std E) (s : LoopState E)
    (e1 e2 : E) (r1 r2 : Round E) (hs : s.err = none)
    (h1 : r1.idle = some e1) (h2 : r2.idle = some e2) :
    (e2 = e1 → ∀ rest,
      (WaitForMessages.loop L s (r1 :: r2 :: rest)).status = Status.failed ∧
      (WaitForMessages.loop L s (r1 :: r2 :: rest)).trace.filterMap Action.sent
        = [some ⟨"unrecoverable error; ", e1⟩]) ∧
    (e2 ≠ e1 → s.recoverErr ≠ some e1 →
      WaitForMessages.loop L s [r1, r2]
        = ⟨{ s with err := some e2, recoverErr := some e2 },
            [.idleStart, .logRecover e1, .idleStart, .logRecover e2], .running⟩ ∧
      ∀ r3 rest, (WaitForMessages.loop L s (r1 :: r2 :: r3 :: rest)).trace.take 5
        = [.idleStart, .logRecover e1, .idleStart, .logRecover e2, .idleStart]) := by
  have hc0 := check_of_no_error s hs
  have hp1 := pass_of_idle_error L s r1 e1 h1
  have hstep1 : ∀ rounds, WaitForMessages.loop L s (r1 :: rounds)
      = ⟨(WaitForMessages.loop L { s with err := some e1 } rounds).state,
          Action.idleStart :: (WaitForMessages.loop L { s with err := some e1 } rounds).trace,
          (WaitForMessages.loop L { s with err := some e1 } rounds).status⟩ := by
    intro rounds
    rw [loop_cons_of_check_ok L s s [] r1 rounds hc0 (by rw [hp1]), hp1]
    rfl
  constructor
  · intro he rest
    subst he
    rw [hstep1]
    by_cases hrec : s.recoverErr = some e2
    · have hc1 : WaitForMessages.check { s with err := some e2 } = .error e2 := by
        simp [WaitForMessages.check, hrec]
      rw [loop_of_check_error L _ e2 _ hc1]
      exact ⟨rfl, rfl⟩
    · have hc1 : WaitForMessages.check { s with err := some e2 }
          = .ok ({ s with err := some e2, recoverErr := some e2 }, [.logRecover e2]) := by
        simp [WaitForMessages.check, hrec]
      have hp2 := pass_of_idle_error L { s with err := some e2, recoverErr := some e2 } r2 e2 h2
      rw [loop_cons_of_check_ok L _ _ _ r2 rest hc1 (by rw [hp2]), hp2]
      have hc2 : WaitForMessages.check
          ({ s with err := some e2, recoverErr := some e2 } : LoopState E) = .error e2 := by
        simp [WaitForMessages.check]
      have hl := loop_of_check_error L
        ({ s with err := some e2, recoverErr := some e2 } : LoopState E) e2 rest hc2
      simp only [] at hl ⊢
      rw [hl]
      exact ⟨rfl, rfl⟩
  · intro hne hrec
    have hc1 : WaitForMessages.check { s with err := some e1 }
        = .ok ({ s with err := some e1, recoverErr := some e1 }, [.logRecover e1]) := by
      simp [WaitForMessages.check, hrec]
    have hp2 := pass_of_idle_error L { s with err := some e1, recoverErr := some e1 } r2 e2 h2
    have hne' : e1 ≠ e2 := fun h => hne h.symm
    have hc2 : WaitForMessages.check
        ({ s with err := some e2, recoverErr := some e1 } : LoopState E)
        = .ok ({ s with err := some e2, recoverErr := some e2 }, [.logRecover e2]) := by
      simp [WaitForMessages.check, hne']
    constructor
    · rw [hstep1, loop_cons_of_check_ok L _ _ _ r2 [] hc1 (by rw [hp2]), hp2]
      have hl := loop_nil_of_check_ok L _ _ _ hc2
      simp only [] at hl ⊢
      rw [hl]
      rfl
    · intro r3 rest
      rw [hstep1, loop_cons_of_check_ok L _ _ _ r2 (r3 :: rest) hc1 (by rw [hp2]), hp2]
      obtain ⟨tl, htl⟩ := loop_trace_head L _ _ _ r3 rest hc2
      simp only [] at htl ⊢
      rw [htl]
      rfl

/-- C6, on the code: a pass in which idle starts and the select receives a push without a
count leaves the last-known count alone and fetches nothing, but it does not keep waiting
on the same idle wait: the `continue` of line 142 starts the next pass, so the loop goes on
from the same variables after one idle-start, and with a further round the first two
actions are two idle-starts with no close of the first in between. -/
theorem loop_push_without_count_starts_idle_again {E : Type} [DecidableEq E] (L : Std E)
    (n : Nat) (baseline close wait : Option E) (badSet : E)
    (collect : Except E (List FetchMessageBuffer)) (rounds : List (Round E)) :
    WaitForMessages.loop L ⟨n, none, baseline⟩
        (⟨none, .pushed none, close, wait, badSet, collect⟩ :: rounds)
      = ⟨(WaitForMessages.loop L ⟨n, none, baseline⟩ rounds).state,
          Action.idleStart :: (WaitForMessages.loop L ⟨n, none, baseline⟩ rounds).trace,
          (WaitForMessages.loop L ⟨n, none, baseline⟩ rounds).status⟩ ∧
    ∀ r1 rest,
      (WaitForMessages.loop L ⟨n, none, baseline⟩
        (⟨none, .pushed none, close, wait, badSet, collect⟩ :: r1 :: rest)).trace.take 2
        = [Action.idleStart, Action.idleStart] := by
  have hc0 := check_of_no_error (⟨n, none, baseline⟩ : LoopState E) rfl
  have hp : WaitForMessages.pass L ⟨n, none, baseline⟩
      ⟨none, .pushed none, close, wait, badSet, collect⟩
      = ⟨⟨n, none, baseline⟩, [.idleStart], false⟩ := rfl
  have hstep : ∀ rounds, WaitForMessages.loop L ⟨n, none, baseline⟩
        (⟨none, .pushed none, close, wait, badSet, collect⟩ :: rounds)
      = ⟨(WaitForMessages.loop L ⟨n, none, baseline⟩ rounds).state,
          Action.idleStart :: (WaitForMessages.loop L ⟨n, none, baseline⟩ rounds).trace,
          (WaitForMessages.loop L ⟨n, none, baseline⟩ rounds).status⟩ := by
    intro rounds
    rw [loop_cons_of_check_ok L _ _ [] _ rounds hc0 (by rw [hp]), hp]
    rfl
  refine ⟨hstep rounds, ?_⟩
  intro r1 rest
  rw [hstep]
  obtain ⟨tl, htl⟩ := loop_trace_head L _ _ _ r1 rest hc0
  simp only [] at htl ⊢
  rw [htl]
  rfl

/-- C4 on a concrete message: `plainMessage` decodes and `PlainText` returns its two body
lines. -/
theorem NewMessage_text_plain_witness :
    ∃ msg, NewMessage (goStd noStd) plainMessage = .ok msg ∧
      (msg.PlainText : Except (DecodeError String) GoString)
        = .ok "line one\nline two\n".toList :=
  NewMessage_text_plain (goStd noStd) plainMessage
    ⟨[("Subject".toList, "Hi".toList),
      ("Content-Type".toList, "Text/Plain; charset=us-ascii".toList)],
      "line one\nline two\n".toList⟩ rfl rfl

/-! ## `parseMultipart` -/

theorem lookup_filter_ne (key other : GoString) (h : key ≠ other) :
    ∀ parts : PartsMap, (parts.filter (fun e => e.1 ≠ other)).lookup key = parts.lookup key := by
  intro parts
  induction parts with
  | nil => rfl
  | cons e parts ih =>
    obtain ⟨k, v⟩ := e
    by_cases hk : k = other
    · have hkey : (key == k) = false := by rw [hk]; simpa using h
      rw [List.filter_cons_of_neg (by simp [hk])]
      simp only [List.lookup, hkey]
      exact ih
    · rw [List.filter_cons_of_pos (by simp [hk])]
      by_cases hkk : key = k
      · have hkey : (key == k) = true := by simpa using hkk
        simp only [List.lookup, hkey]
      · have hkey : (key == k) = false := by simpa using hkk
        simp only [List.lookup, hkey]
        exact ih

theorem lookup_set_self (parts : PartsMap) (key cb : GoString) :
    (parts.set key cb).lookup key = some cb := by
  simp [PartsMap.set, List.lookup]

theorem lookup_set_other (parts : PartsMap) (key other cb : GoString) (h : key ≠ other) :
    (parts.set other cb).lookup key = parts.lookup key := by
  have hkey : (key == other) = false := by simpa using h
  simp only [PartsMap.set, List.lookup, hkey]
  exact lookup_filter_ne key other h parts

/-- One pass of the loop of `parseMultipart` changes the map the way `store` says and goes
on with the remaining parts. -/
theorem parseMultipart_loop_cons {E : Type} (L : Std E) (last : Option E) (n : Part E)
    (ps : List (Part E)) (parts : PartsMap) :
    parseMultipart.loop L last (n :: ps) parts
      = parseMultipart.loop L last ps (parseMultipart.store L n parts) := by
  rw [parseMultipart.loop]
  unfold parseMultipart.store
  rw [parseMultipart.loop]
  cases Split (n.Header.Get "Content-Type".toList) ';' with
  | nil => rfl
  | cons k ks =>
    simp only []
    split <;> rfl

/-- Parts with other keys leave the entry of `key` alone, and the loop ends the way
`NextPart` ends. -/
theorem parseMultipart_loop_other_keys {E : Type} (L : Std E) (last : Option E)
    (key : GoString) :
    ∀ (ps : List (Part E)) (parts : PartsMap),
      (∀ q ∈ ps, (Split (q.Header.Get "Content-Type".toList) ';').head? ≠ some key) →
      (parseMultipart.loop L last ps parts).1.lookup key = parts.lookup key ∧
        (parseMultipart.loop L last ps parts).2 = last := by
  intro ps
  induction ps with
  | nil => intro parts _; exact ⟨rfl, rfl⟩
  | cons n ps ih =>
    intro parts h
    have hn := h n (by simp)
    have hps : ∀ q ∈ ps, (Split (q.Header.Get "Content-Type".toList) ';').head? ≠ some key :=
      fun q hq => h q (List.mem_cons_of_mem _ hq)
    rw [parseMultipart_loop_cons]
    have hstore : (parseMultipart.store L n parts).lookup key = parts.lookup key := by
      unfold parseMultipart.store
      rw [parseMultipart.loop]
      cases hsp : Split (n.Header.Get "Content-Type".toList) ';' with
      | nil => rfl
      | cons k ks =>
        rw [hsp] at hn
        have hk : key ≠ k := fun e => hn (by simp [e])
        simp only []
        split
        · rfl
        · exact lookup_set_other parts key k _ hk
    rw [← hstore]
    exact ih _ hps

theorem parseMultipart_loop_append {E : Type} (L : Std E) (last last1 : Option E)
    (ps : List (Part E)) :
    ∀ (pre : List (Part E)) (parts : PartsMap),
      parseMultipart.loop L last (pre ++ ps) parts
        = parseMultipart.loop L last ps (parseMultipart.loop L last1 pre parts).1 := by
  intro pre
  induction pre with
  | nil => intro parts; rfl
  | cons n pre ih =>
    intro parts
    rw [List.cons_append, parseMultipart_loop_cons, parseMultipart_loop_cons]
    exact ih _

theorem not_text_plain_of_multipart (s : GoString)
    (h : HasPrefix s "multipart/alternative".toList = true) :
    HasPrefix s "text/plain".toList = false := by
  cases s with
  | nil => rfl
  | cons c s =>
    have hc : c = 'm' := by
      simp [HasPrefix, List.isPrefixOf] at h
      exact h.1.symm
    subst hc
    rfl

theorem exists_of_decodesTo {E : Type} (L : Std E) (raw subject text : GoString)
    (h : decodesTo L raw subject text = true) :
    ∃ msg, NewMessage L raw = .ok msg ∧ msg.Subject L = .ok subject ∧
      (msg.PlainText : Except (DecodeError E) GoString) = .ok text := by
  unfold decodesTo at h
  cases hm : NewMessage L raw with
  | error e => simp [hm] at h
  | ok msg =>
    refine ⟨msg, rfl, ?_, ?_⟩
    · cases hs : msg.Subject L with
      | error e => simp [hm, hs] at h
      | ok s0 =>
        simp only [hm, hs, Bool.and_eq_true, beq_iff_eq] at h
        rw [h.1]
    · cases ht : (msg.PlainText : Except (DecodeError E) GoString) with
      | error e => simp [hm, ht] at h
      | ok t0 =>
        simp only [hm, ht, Bool.and_eq_true, beq_iff_eq] at h
        rw [h.2]

set_option maxRecDepth 100000 in
theorem fixture_decodes (other : Std String) :
    decodesTo (goStd other) fixture "Hello".toList "Hello world!".toList = true := rfl

theorem parseMultipart_of_parts {E : Type} (L : Std E) (base : MailMessage)
    (mediatype : GoString) (params : List (GoString × GoString)) (ps : List (Part E))
    (last : Option E)
    (hparse : L.ParseMediaType (base.Header.Get "Content-Type".toList) = .ok (mediatype, params))
    (hnext : L.NextParts base.Body ((params.lookup "boundary".toList).getD []) = (ps, last)) :
    parseMultipart L base
      = (some (parseMultipart.loop L last ps []).1,
          (parseMultipart.loop L last ps []).2.map DecodeError.lib) := by
  unfold parseMultipart
  simp only [hparse, hnext]

/-- C3, amended: `NewMessage` decodes the raw message of `TestMessageParseBody`, `Subject`
returns `Hello` and `PlainText` returns `Hello world!`, both without error. And for every message
whose lower-cased `Content-Type` starts with `multipart/alternative`, whose media type
parses and whose parts are read to the end without error: if `p` is the part stored under
the key `text/plain` (no later part has that key), its transfer encoding is not
`quoted-printable` and its content reads as `cb`, then `NewMessage` succeeds and
`PlainText` returns exactly `cb`. -/
theorem NewMessage_multipart_plain_text (other : Std String) :
    (∃ msg, NewMessage (goStd other) fixture = .ok msg ∧
        msg.Subject (goStd other) = .ok "Hello".toList ∧
        (msg.PlainText : Except (DecodeError String) GoString) = .ok "Hello world!".toList) ∧
    (∀ {E : Type} (L : Std E) (rawBody : GoString) (base : MailMessage)
        (mediatype : GoString) (params : List (GoString × GoString))
        (pre post : List (Part E)) (p : Part E) (cb : GoString),
        L.ReadMessage rawBody = .ok base →
        HasPrefix (L.ToLower (base.Header.Get "Content-Type".toList))
          "multipart/alternative".toList = true →
        L.ParseMediaType (base.Header.Get "Content-Type".toList) = .ok (mediatype, params) →
        L.NextParts base.Body ((params.lookup "boundary".toList).getD [])
          = (pre ++ p :: post, none) →
        (Split (p.Header.Get "Content-Type".toList) ';').head? = some "text/plain".toList →
        L.ToLower (p.Header.Get "Content-Transfer-Encoding".toList)
          ≠ "quoted-printable".toList →
        p.content = .ok cb →
        (∀ q ∈ post,
          (Split (q.Header.Get "Content-Type".toList) ';').head? ≠ some "text/plain".toList) →
        ∃ msg, NewMessage L rawBody = .ok msg ∧
          (msg.PlainText : Except (DecodeError E) GoString) = .ok cb) := by
  refine ⟨exists_of_decodesTo _ _ _ _ (fixture_decodes other), ?_⟩
  intro E L rawBody base mediatype params pre post p cb hread hct hparse hnext hkey henc
    hcontent hpost
  have hstore : ∀ parts : PartsMap,
      parseMultipart.store L p parts = parts.set "text/plain".toList cb := by
    intro parts
    unfold parseMultipart.store
    rw [parseMultipart.loop]
    cases hsp : Split (p.Header.Get "Content-Type".toList) ';' with
    | nil => rw [hsp] at hkey; cases hkey
    | cons k ks =>
      rw [hsp] at hkey
      have hk : k = "text/plain".toList := by simpa using hkey
      subst hk
      simp only [if_neg henc, hcontent]
      rfl
  have hloop := parseMultipart_loop_append L none none (p :: post) pre []
  rw [parseMultipart_loop_cons, hstore] at hloop
  have hrest := parseMultipart_loop_other_keys L none "text/plain".toList post
    ((parseMultipart.loop L none pre []).1.set "text/plain".toList cb) hpost
  rw [← hloop, lookup_set_self] at hrest
  have hpm := parseMultipart_of_parts L base mediatype params _ _ hparse hnext
  rw [hrest.2] at hpm
  refine ⟨{ base := base, parts := (parseMultipart.loop L none (pre ++ p :: post) []).1 }, ?_, ?_⟩
  · simp only [NewMessage, hread]
    rw [if_neg (by rw [not_text_plain_of_multipart _ hct]; simp), if_pos hct, hpm]
    rfl
  · simp only [Message.PlainText, hrest.1]

/-- C3, amended, second part, on a concrete message: `twoPartMessage` decodes and `PlainText` returns
the content of its plain part. -/
theorem NewMessage_multipart_plain_text_witness :
    ∃ msg, NewMessage (goStd noStd) twoPartMessage = .ok msg ∧
      (msg.PlainText : Except (DecodeError String) GoString) = .ok "Hello".toList :=
  (NewMessage_multipart_plain_text noStd).2 (goStd noStd) twoPartMessage
    ⟨[("Content-Type".toList, "multipart/alternative; boundary=b".toList)],
      ("--b\nContent-Type: text/plain; charset=us-ascii\n\nHello\n--b\n" ++
        "Content-Type: text/html\n\n<b>Hello</b>\n--b--\n").toList⟩
    "multipart/alternative".toList [("boundary".toList, "b".toList)]
    []
    [⟨[("Content-Type".toList, "text/html".toList)], .ok "<b>Hello</b>".toList⟩]
    ⟨[("Content-Type".toList, "text/plain; charset=us-ascii".toList)], .ok "Hello".toList⟩
    "Hello".toList rfl rfl rfl rfl rfl (by decide) rfl
    (by
      intro q hq
      have hq1 : q = ⟨[("Content-Type".toList, "text/html".toList)], .ok "<b>Hello</b>".toList⟩ := by
        simpa using hq
      subst hq1
      decide)

/-- C8, on the code: a part without `Content-Type` is not skipped. `strings.Split("", ";")`
is `[""]`, of length 1, so the guard of line 70 never holds: in `orphanPartMessage`, whose
only part has no header, the body of the part is stored under the empty key. -/
theorem parseMultipart_stores_part_without_content_type (other : Std String) :
    Split [] ';' = [[]] ∧
      NewMessage (goStd other) orphanPartMessage
        = .ok ⟨⟨[("Content-Type".toList, "multipart/alternative; boundary=b".toList)],
                "--b\n\norphan\n--b--\n".toList⟩,
              [([], "orphan".toList)]⟩ :=
  ⟨rfl, rfl⟩

/-! ## Runs of the watch loop -/

/-- C1 on a concrete pass: last-known count 3, pushed count 5, and a fetch that returns no
message: one fetch, for `4:5`, and the count becomes 5. -/
theorem reconcile_fetches_new_range_witness :
    (WaitForMessages.pass (goStd noStd) ⟨3, none, none⟩ (pushRound 5 (.ok []))).actions
        = [.idleStart, .idleClose, .idleWait, .fetch [(4, 5)]] ∧
      (WaitForMessages.reconcile (goStd noStd) ⟨3, none, none⟩ 5 "bad set" (.ok [])).2.filterMap
        Action.fetched = [[(4, 5)]] ∧
      (WaitForMessages.reconcile (goStd noStd) ⟨3, none, none⟩ 5 "bad set" (.ok [])).1
        = { numMessages := 5, err := none, recoverErr := none } :=
  ⟨rfl,
    (reconcile_fetches_new_range (goStd noStd) ⟨3, none, none⟩ 5 "bad set" (.ok [])
      (by decide) (by decide)).2.1,
    (reconcile_fetches_new_range (goStd noStd) ⟨3, none, none⟩ 5 "bad set" (.ok [])
      (by decide) (by decide)).2.2.2.1 [] rfl⟩

/-- The loop on concrete runs: idle-start failing twice with one and the same value ends it
with that value wrapped; a second failure with another value leaves it running with the
second value as the baseline. -/
theorem loop_idle_start_failures_witness :
    ((WaitForMessages.loop (refusingStd ⟨0, "unsupported"⟩) ⟨7, none, none⟩
        [idleRefused ⟨1, "EOF"⟩, idleRefused ⟨1, "EOF"⟩]).status = Status.failed ∧
      (WaitForMessages.loop (refusingStd ⟨0, "unsupported"⟩) ⟨7, none, none⟩
        [idleRefused ⟨1, "EOF"⟩, idleRefused ⟨1, "EOF"⟩]).trace.filterMap Action.sent
        = [some ⟨"unrecoverable error; ", ⟨1, "EOF"⟩⟩]) ∧
    WaitForMessages.loop (refusingStd ⟨0, "unsupported"⟩) ⟨7, none, none⟩
        [idleRefused ⟨1, "EOF"⟩, idleRefused ⟨2, "timeout"⟩]
      = ⟨⟨7, some ⟨2, "timeout"⟩, some ⟨2, "timeout"⟩⟩,
          [.idleStart, .logRecover ⟨1, "EOF"⟩, .idleStart, .logRecover ⟨2, "timeout"⟩],
          .running⟩ :=
  ⟨(loop_idle_start_failures (refusingStd ⟨0, "unsupported"⟩) ⟨7, none, none⟩
      (⟨1, "EOF"⟩ : GoError) (⟨1, "EOF"⟩ : GoError)
      (idleRefused ⟨1, "EOF"⟩) (idleRefused ⟨1, "EOF"⟩) rfl rfl rfl).1 rfl [],
    ((loop_idle_start_failures (refusingStd ⟨0, "unsupported"⟩) ⟨7, none, none⟩
      (⟨1, "EOF"⟩ : GoError) (⟨2, "timeout"⟩ : GoError)
      (idleRefused ⟨1, "EOF"⟩) (idleRefused ⟨2, "timeout"⟩) rfl rfl rfl).2
      (by decide) (by decide)).1⟩

theorem check_fresh {E : Type} [DecidableEq E] (s : LoopState E) (errs : List E)
    (herr : ∀ e, s.err = some e → e ∉ errs ∧ s.recoverErr ≠ some e)
    (hrec : ∀ e, s.recoverErr = some e → e ∉ errs) :
    ∃ s1 acts, WaitForMessages.check s = .ok (s1, acts) ∧
      acts.filter Action.onDone = [] ∧ acts.count Action.idleStart = 0 ∧
      (∀ e, s1.recoverErr = some e → e ∉ errs) := by
  cases hse : s.err with
  | none => exact ⟨s, [], check_of_no_error s hse, rfl, rfl, hrec⟩
  | some e0 =>
    obtain ⟨hmem, hne⟩ := herr e0 hse
    refine ⟨{ s with recoverErr := some e0 }, [.logRecover e0], ?_, rfl, ?_, ?_⟩
    · simp [WaitForMessages.check, hse, hne]
    · simp
    · intro e he
      have : e0 = e := by simpa using he
      exact this ▸ hmem

/-- Failures that are each a value of their own never end the loop: it keeps running, the
completion channel sees nothing, and every round starts idle once more. -/
theorem loop_fresh_failures {E : Type} [DecidableEq E] (L : Std E) :
    ∀ (errs : List E) (rounds : List (Round E)) (s : LoopState E),
      rounds.map (fun r => r.idle) = errs.map some → errs.Nodup →
      (∀ e, s.err = some e → e ∉ errs ∧ s.recoverErr ≠ some e) →
      (∀ e, s.recoverErr = some e → e ∉ errs) →
      (WaitForMessages.loop L s rounds).status = Status.running ∧
        (WaitForMessages.loop L s rounds).trace.filter Action.onDone = [] ∧
        (WaitForMessages.loop L s rounds).trace.count Action.idleStart = rounds.length := by
  intro errs
  induction errs with
  | nil =>
    intro rounds s hmap _ herr hrec
    have hr : rounds = [] := by simpa using hmap
    subst hr
    obtain ⟨s1, acts, hc, hdone, hcount, _⟩ := check_fresh s [] herr hrec
    rw [loop_nil_of_check_ok L s s1 acts hc]
    exact ⟨rfl, hdone, hcount⟩
  | cons e es ih =>
    intro rounds s hmap hnd herr hrec
    cases rounds with
    | nil => simp at hmap
    | cons r rs =>
      simp only [List.map_cons, List.cons.injEq] at hmap
      obtain ⟨hidle, hrest⟩ := hmap
      obtain ⟨s1, acts, hc, hdone, hcount, hrec1⟩ := check_fresh s (e :: es) herr hrec
      have hp := pass_of_idle_error L s1 r e hidle
      rw [loop_cons_of_check_ok L s s1 acts r rs hc (by rw [hp]), hp]
      have hnd' := List.nodup_cons.1 hnd
      have hinv := ih rs { s1 with err := some e } hrest hnd'.2
        (by
          intro e' he'
          have he : e = e' := by simpa using he'
          subst he
          refine ⟨hnd'.1, ?_⟩
          intro h
          exact hrec1 e h (by simp))
        (by
          intro e' he'
          exact fun hmem => hrec1 e' he' (List.mem_cons_of_mem _ hmem))
      simp only [] at hinv ⊢
      refine ⟨hinv.1, ?_, ?_⟩
      · simp [List.filter_append, hdone, hinv.2.1, Action.onDone]
      · simp [List.count_append, hcount, hinv.2.2]

/-- C2, on the code: the test of line 120, `recoverErr == err`, compares the two error
values, not what they say. When idle-start fails again and again and each failure is a value
of its own (its own pointer, as for the error built from each response of the server), no
two failures are the same for `==`, however equal their type and text: the goroutine never
fails, nothing is sent on the completion channel, and every round starts idle once more. -/
theorem WaitForMessages_fresh_failures_never_fail (L : Std GoError) (m : mailbox)
    (errs : List GoError) (rounds : List (Round GoError))
    (hidle : rounds.map (fun r => r.idle) = errs.map some)
    (hfresh : (errs.map (fun e => e.addr)).Nodup) :
    (WaitForMessages L m rounds).status = Status.running ∧
      (WaitForMessages L m rounds).trace.filter Action.onDone = [] ∧
      (WaitForMessages L m rounds).trace.count Action.idleStart = rounds.length := by
  have hnd : errs.Nodup := List.Nodup.of_map _ hfresh
  have h := loop_fresh_failures L errs rounds ⟨m.numMessages, none, none⟩ hidle hnd
    (by intro e he; cases he) (by intro e he; cases he)
  unfold WaitForMessages
  simp only [h.1]
  refine ⟨trivial, ?_, ?_⟩
  · cases hm : m.unliteralMailboxHandler <;> simp [h.2.1, Action.onDone]
  · cases hm : m.unliteralMailboxHandler <;> simp [List.count_append, h.2.2]

/-- C2 on a concrete run: three refusals of IDLE with the same text, each a value of its
own, leave the goroutine running after three idle-starts, with nothing sent. -/
theorem WaitForMessages_fresh_failures_never_fail_witness :
    (threeRefusals.map (fun e => e.text)).eraseDups = ["imap: NO IDLE refused"] ∧
      (WaitForMessages (refusingStd ⟨0, "unsupported"⟩) connectedMailbox
          (threeRefusals.map idleRefused)).trace
        = [.makeHandler, .idleStart, .logRecover ⟨101, "imap: NO IDLE refused"⟩, .idleStart,
            .logRecover ⟨102, "imap: NO IDLE refused"⟩, .idleStart,
            .logRecover ⟨103, "imap: NO IDLE refused"⟩] ∧
      (WaitForMessages (refusingStd ⟨0, "unsupported"⟩) connectedMailbox
          (threeRefusals.map idleRefused)).status = Status.running :=
  ⟨by decide, rfl,
    (WaitForMessages_fresh_failures_never_fail (refusingStd ⟨0, "unsupported"⟩)
      connectedMailbox threeRefusals (threeRefusals.map idleRefused) rfl (by decide)).1⟩

/-- C7 on a concrete batch: of the three messages of `sampleBatch` the first and the third
decode and are sent, in this order; the second is logged and left out. -/
theorem fetch_publishes_decoded_witness :
    (mailbox.fetch (goStd noStd) [(4, 6)] (.ok sampleBatch)).1
        = [ .fetch [(4, 6)],
            .publish
              ⟨⟨[("Subject".toList, "Hi".toList),
                  ("Content-Type".toList, "Text/Plain; charset=us-ascii".toList)],
                "line one\nline two\n".toList⟩,
                [("text/plain".toList, "line one\nline two\n".toList)]⟩,
            .logParseFailure 5 14,
            .publish
              ⟨⟨[("Content-Type".toList, "multipart/alternative; boundary=b".toList)],
                ("--b\nContent-Type: text/plain; charset=us-ascii\n\nHello\n--b\n" ++
                  "Content-Type: text/html\n\n<b>Hello</b>\n--b--\n").toList⟩,
                [("text/html".toList, "<b>Hello</b>".toList),
                  ("text/plain".toList, "Hello".toList)]⟩ ] ∧
      (mailbox.fetch (goStd noStd) [(4, 6)] (.ok sampleBatch)).1.filterMap Action.published
        = sampleBatch.filterMap (fun message =>
            (NewMessage (goStd noStd)
              ((((message.BodySection.filter (fun sv => sv.1 = PartSpecifier.None)).getLast?).map
                Prod.snd).getD [])).toOption) :=
  ⟨rfl, (fetch_publishes_decoded (goStd noStd) [(4, 6)] sampleBatch).2⟩

/-- C3, as stated, fails on multipart/alternative messages whose plain part is not
quoted-printable: a part that spells its type `Text/Plain` is stored under that key and
`PlainText` finds nothing; of two plain parts the second is returned, not the first; and when
the message ends before its closing delimiter, or its media type does not parse,
`NewMessage` fails, intact plain part or not. -/
theorem PlainText_misses_plain_part :
    (NewMessage (goStd noStd) upperCasePartMessage).toOption.map
        (fun msg => (msg.parts, (msg.PlainText : Except (DecodeError String) GoString)))
      = some ([("Text/Plain".toList, "Hello".toList)], .error .contentTypeNotFound) ∧
    (NewMessage (goStd noStd) twoPlainPartsMessage).toOption.map
        (fun msg => (msg.PlainText : Except (DecodeError String) GoString))
      = some (.ok "second".toList) ∧
    NewMessage (goStd noStd) truncatedMessage = .error (.lib "multipart: NextPart: EOF") ∧
    NewMessage (goStd noStd) emptyBoundaryMessage
      = .error (.invalidMultipart "mime: invalid media parameter") :=
  ⟨rfl, rfl, rfl, rfl⟩

/-- C5, as stated, fails: in a run that ends by cancellation at the select, nothing is sent
on the completion channel; it is only closed. -/
theorem WaitForMessages_cancel_sends_nothing :
    (WaitForMessages (goStd noStd) connectedMailbox [cancelRound]).status = Status.stopped ∧
      (WaitForMessages (goStd noStd) connectedMailbox [cancelRound]).trace
        = [.makeHandler, .idleStart, .closeHandler, .closeDone] ∧
      (WaitForMessages (goStd noStd) connectedMailbox [cancelRound]).trace.filterMap Action.sent
        = [] :=
  ⟨rfl, rfl, rfl⟩

end ImapExample
